import Mathlib

/-!
# Retry utility (`tasks/retry.go`)

A shallow embedding of the Go package `tasks`: the two sentinel errors, the
cancellation token (a Go channel of errors), the built-in `FixedDuration`
retry policy (a closure over a mutable `int` counter), the cancellable `Wait`
and the `RetryOperation` loop.

Conventions of the embedding.

* A Go `error` is `Option GoError`; `none` is `nil`.
* A `time.Duration` is an `Int` (nanoseconds); the code never computes with it.
* A Go `int` is 64 bits wide here; `count++` wraps around (`wrapInt`).
* A closure with captured mutable state is a step function on an explicit
  state; calling it returns its results and the next state.
* The operation handed to `RetryOperation` is opaque: it is represented by the
  result of each of its invocations, `operation i` being what invocation
  number `i + 1` of the run returns.
* The `select` of `Wait` is resolved by the scheduler; the case it takes is a
  `SelectCase`, and `token i` is the case taken by wait number `i + 1` of a run.
* `for { ... }` has no bound; the loop is run with fuel and yields `none` when
  the fuel is used up before the loop has returned.
* The token is a Go channel: a send returns only when a receiver is parked or
  the buffer has room, and a `select` takes a ready case, choosing among
  several ready cases at random (`CancellationToken.select`).
-/

namespace tasks

/-! ## Data model -/

/-- Go error values. The two package-level sentinels are distinct values made
by two calls of `fmt.Errorf`; every other error is `other`. -/
inductive GoError where
  | ErrorMaxRetryReached : GoError
  | ErrorTaskCancelled : GoError
  | other (id : Nat) : GoError
  deriving DecidableEq, Repr

/-- A `time.Duration`. -/
abbrev Duration := Int

/-- The value of a Go `int` after an arithmetic result `x`: two's complement
wrap-around at 64 bits. -/
def wrapInt (x : Int) : Int :=
  (x + 9223372036854775808) % 18446744073709551616 - 9223372036854775808

/-- The type `RetryPolicy`, `func() (time.Duration, error)`: a closure, given
by its step on the captured state. -/
abbrev RetryPolicy (π : Type) := π → (Duration × Option GoError) × π

/-- The variables captured by the closure that `FixedDuration` returns. -/
structure FixedDurationClosure where
  retryPeriod : Duration
  maxRetry : Int
  count : Int
  deriving DecidableEq, Repr

/-- The constructor `FixedDuration(retryPeriod, maxRetry)`: the closure with
`count := 0`. -/
def FixedDuration (retryPeriod : Duration) (maxRetry : Int) : FixedDurationClosure :=
  { retryPeriod := retryPeriod, maxRetry := maxRetry, count := 0 }

/-- One call of the closure returned by `FixedDuration`: `count++`, then
`if count >= maxRetry { err = ErrorMaxRetryReached }`, then
`return retryPeriod, err`. -/
def FixedDurationClosure.call : RetryPolicy FixedDurationClosure := fun c =>
  let count := wrapInt (c.count + 1)
  let err := if count ≥ c.maxRetry then some GoError.ErrorMaxRetryReached else none
  ((c.retryPeriod, err), { c with count := count })

/-- The state of a policy closure after `k` calls. -/
def stateAfter {π : Type} (retryPolicy : RetryPolicy π) : Nat → π → π
  | 0, s => s
  | k + 1, s => stateAfter retryPolicy k (retryPolicy s).2

/-- What call number `k` of a policy closure returns (`k = 1` is the first
call made on state `s`). -/
def kthCall {π : Type} (retryPolicy : RetryPolicy π) (s : π) (k : Nat) :
    Duration × Option GoError :=
  (retryPolicy (stateAfter retryPolicy (k - 1) s)).1

/-! ## Cancellation token -/

/-- A Go channel of errors, `chan error`: its capacity, the values in its
buffer, the number of goroutines parked in a receive on it and the values of
the goroutines parked in a send on it. -/
structure CancellationToken where
  capacity : Nat
  buffer : List (Option GoError)
  receivers : Nat
  senders : List (Option GoError)
  deriving DecidableEq, Repr

/-- The constructor `NewCancellationToken()`: `make(CancellationToken)`, a
channel without buffer that nobody uses yet. -/
def NewCancellationToken : CancellationToken :=
  { capacity := 0, buffer := [], receivers := 0, senders := [] }

/-- Whether a channel send returned to its caller or left it parked. -/
inductive SendStatus where
  | returned : SendStatus
  | parked : SendStatus
  deriving DecidableEq, Repr

/-- The Go statement `c <- v`: the value is handed to a parked receiver if
there is one, else put in the buffer if it has room, else the sender parks. -/
def CancellationToken.send (c : CancellationToken) (v : Option GoError) :
    SendStatus × CancellationToken :=
  if 0 < c.receivers then
    (SendStatus.returned, { c with receivers := c.receivers - 1 })
  else if c.buffer.length < c.capacity then
    (SendStatus.returned, { c with buffer := c.buffer ++ [v] })
  else
    (SendStatus.parked, { c with senders := c.senders ++ [v] })

/-- The method `Cancel`: `c <- ErrorTaskCancelled`. -/
def CancellationToken.Cancel (c : CancellationToken) : SendStatus × CancellationToken :=
  c.send (some GoError.ErrorTaskCancelled)

/-- A goroutine arrives at a receive on the channel and parks there (as `Wait`
does inside its `select` while no sender is ready). -/
def CancellationToken.parkReceiver (c : CancellationToken) : CancellationToken :=
  { c with receivers := c.receivers + 1 }

/-! ## Wait -/

/-- The case a `select` of `Wait` takes: the timer channel of
`time.After(duration)` delivered, or a value was received from the token. -/
inductive SelectCase where
  | timer : SelectCase
  | token (err : Option GoError) : SelectCase
  deriving DecidableEq, Repr

/-- The select case taken when the value sent by `Cancel` is received. -/
def SelectCase.cancelled : SelectCase :=
  SelectCase.token (some GoError.ErrorTaskCancelled)

/-- The function `Wait(duration, token)`, given the case its `select` takes:
`case <-time.After(duration): return nil`, `case err := <-token: return err`. -/
def Wait (_duration : Duration) (taken : SelectCase) : Option GoError :=
  match taken with
  | SelectCase.timer => none
  | SelectCase.token err => err

/-! ## RetryOperation -/

/-- The calls a run of `RetryOperation` makes, with what they returned. -/
inductive Event where
  | operation (err : Option GoError) : Event
  | policy (duration : Duration) (policyViolation : Option GoError) : Event
  | wait (duration : Duration) (err : Option GoError) : Event
  deriving DecidableEq, Repr

/-- What a run of `RetryOperation` leaves behind: the returned error, the
state of the policy closure and the calls made, in order. -/
structure Run (π : Type) where
  result : Option GoError
  policyState : π
  trace : List Event

/-- Puts the calls of one iteration in front of the rest of the run. -/
def Run.after {π : Type} (events : List Event) (r : Run π) : Run π :=
  { r with trace := events ++ r.trace }

/-- The loop of `RetryOperation`, from iteration `i` (counted from 0) on:
call the operation and return `nil` if it reports no error; else call the
policy and return its violation if there is one; else `Wait`, return its error
if there is one, and go round again. -/
def retryLoop {π : Type} (operation : Nat → Option GoError) (retryPolicy : RetryPolicy π)
    (token : Nat → SelectCase) : Nat → Nat → π → Option (Run π)
  | 0, _, _ => none
  | fuel + 1, i, s =>
    match operation i with
    | none => some { result := none, policyState := s, trace := [Event.operation none] }
    | some err =>
      match retryPolicy s with
      | ((duration, some policyViolation), s') =>
        some { result := some policyViolation, policyState := s',
               trace := [Event.operation (some err),
                         Event.policy duration (some policyViolation)] }
      | ((duration, none), s') =>
        match Wait duration (token i) with
        | some werr =>
          some { result := some werr, policyState := s',
                 trace := [Event.operation (some err), Event.policy duration none,
                           Event.wait duration (some werr)] }
        | none =>
          (retryLoop operation retryPolicy token fuel (i + 1) s').map
            (Run.after [Event.operation (some err), Event.policy duration none,
                        Event.wait duration none])

/-- The function `RetryOperation(operation, retryPolicy, token)`, run for at
most `fuel` iterations on a policy closure in state `s`. -/
def RetryOperation {π : Type} (fuel : Nat) (operation : Nat → Option GoError)
    (retryPolicy : RetryPolicy π) (s : π) (token : Nat → SelectCase) : Option (Run π) :=
  retryLoop operation retryPolicy token fuel 0 s

/-! ## Observations on a trace -/

/-- Number of invocations of the operation. -/
def attempts : List Event → Nat
  | [] => 0
  | Event.operation _ :: tr => attempts tr + 1
  | _ :: tr => attempts tr

/-- Number of calls of the retry policy. -/
def policyCalls : List Event → Nat
  | [] => 0
  | Event.policy _ _ :: tr => policyCalls tr + 1
  | _ :: tr => policyCalls tr

/-- The durations of the waits performed, in order. -/
def waits : List Event → List Duration
  | [] => []
  | Event.wait d _ :: tr => d :: waits tr
  | _ :: tr => waits tr

/-- An operation that fails on every attempt. -/
def alwaysFails (operation : Nat → Option GoError) : Prop :=
  ∀ i, operation i ≠ none

/-- A token that is never triggered: every wait ends by the timer. -/
def neverTriggered (token : Nat → SelectCase) : Prop :=
  ∀ i, token i = SelectCase.timer

/-- The calls made by `m` rounds of the loop in each of which the operation
fails, the policy allows a retry and the wait returns `nil`, from iteration `i`
and policy state `s` on. -/
def failedRounds {π : Type} (operation : Nat → Option GoError) (retryPolicy : RetryPolicy π) :
    Nat → Nat → π → List Event
  | 0, _, _ => []
  | m + 1, i, s =>
    [Event.operation (operation i), Event.policy (retryPolicy s).1.1 none,
      Event.wait (retryPolicy s).1.1 none]
      ++ failedRounds operation retryPolicy m (i + 1) (retryPolicy s).2

/-- A policy closure whose result depends only on the call number: its state
is the number of calls made so far. -/
def byCallNumber (f : Nat → Duration × Option GoError) : RetryPolicy Nat :=
  fun calls => (f (calls + 1), calls + 1)

/-- A token from which the value sent by `Cancel` is received during wait
number `j + 1`, every other wait ending by the timer. -/
def cancelledAt (j : Nat) : Nat → SelectCase :=
  fun i => if i = j then SelectCase.cancelled else SelectCase.timer

/-- What a receive on the channel can take at once: the oldest value in the
buffer (a parked sender then moves its value into the buffer), else the value
of the oldest parked sender, which is released. -/
def CancellationToken.receiveReady (c : CancellationToken) :
    Option (Option GoError × CancellationToken) :=
  match c.buffer, c.senders with
  | v :: buffer, [] => some (v, { c with buffer := buffer })
  | v :: buffer, w :: senders => some (v, { c with buffer := buffer ++ [w], senders := senders })
  | [], w :: senders => some (w, { c with senders := senders })
  | [], [] => none

/-- The `select` of `Wait` when it is reached: `timerReady` tells whether the
channel of `time.After(duration)` has already delivered, `pickTimer` is the
pseudo-random choice Go makes when both cases are ready. With no case ready
the goroutine parks (`none`). -/
def CancellationToken.select (c : CancellationToken) (timerReady pickTimer : Bool) :
    Option (SelectCase × CancellationToken) :=
  match c.receiveReady, timerReady with
  | some (v, c'), false => some (SelectCase.token v, c')
  | some (v, c'), true =>
    if pickTimer then some (SelectCase.timer, c) else some (SelectCase.token v, c')
  | none, true => some (SelectCase.timer, c)
  | none, false => none

/-- Where the loop of `RetryOperation` stands between two calls: about to
invoke the operation, about to call the policy, about to wait, or returned. -/
inductive Phase where
  | attempt : Phase
  | consult : Phase
  | pause : Phase
  | returned : Phase
  deriving DecidableEq, Repr

/-- The order of calls read off the claim about interleaving: an attempt that
succeeds ends the run; an attempt that fails is followed by a policy call; a
policy call with a violation ends the run, one without is followed by a wait;
a wait with an error ends the run, one without is followed by the next
attempt. No other call is allowed. -/
def Phase.next : Phase → Event → Option Phase
  | Phase.attempt, Event.operation none => some Phase.returned
  | Phase.attempt, Event.operation (some _) => some Phase.consult
  | Phase.consult, Event.policy _ (some _) => some Phase.returned
  | Phase.consult, Event.policy _ none => some Phase.pause
  | Phase.pause, Event.wait _ (some _) => some Phase.returned
  | Phase.pause, Event.wait _ none => some Phase.attempt
  | _, _ => none

/-- The phase reached from `ph` after the calls `tr`, if they come in the
allowed order. -/
def Phase.after : Phase → List Event → Option Phase
  | ph, [] => some ph
  | ph, e :: tr =>
    match ph.next e with
    | some ph' => ph'.after tr
    | none => none

/-- Number of failed invocations of the operation. -/
def failedAttempts : List Event → Nat
  | [] => 0
  | Event.operation (some _) :: tr => failedAttempts tr + 1
  | _ :: tr => failedAttempts tr

/-- Number of policy calls that reported no violation. -/
def retriesAllowed : List Event → Nat
  | [] => 0
  | Event.policy _ none :: tr => retriesAllowed tr + 1
  | _ :: tr => retriesAllowed tr

/-- A custom policy for examples: call `k` returns the delay `k`, and the
violation `other 9` from the third call on. -/
def growingDelays : RetryPolicy Nat :=
  byCallNumber (fun k => ((k : Int), if 3 ≤ k then some (GoError.other 9) else none))

/-! ## FixedDuration: the counter -/

theorem wrapInt_of_inRange (x : Int)
    (h₁ : -9223372036854775808 ≤ x) (h₂ : x < 9223372036854775808) : wrapInt x = x := by
  unfold wrapInt
  omega

theorem wrapInt_add_wrapInt (x y : Int) : wrapInt (wrapInt x + y) = wrapInt (x + y) := by
  unfold wrapInt
  omega

theorem FixedDurationClosure.stateAfter_succ (k : Nat) (c : FixedDurationClosure) :
    stateAfter FixedDurationClosure.call (k + 1) c
      = { c with count := wrapInt (c.count + ((k : Int) + 1)) } := by
  induction k generalizing c with
  | zero => simp [stateAfter, FixedDurationClosure.call]
  | succ k ih =>
    rw [stateAfter, ih]
    simp only [FixedDurationClosure.call, wrapInt_add_wrapInt, Nat.cast_succ]
    congr 2
    ring

theorem FixedDurationClosure.call_stateAfter (k : Nat) (c : FixedDurationClosure) :
    FixedDurationClosure.call (stateAfter FixedDurationClosure.call k c)
      = ((c.retryPeriod,
          if wrapInt (c.count + ((k : Int) + 1)) ≥ c.maxRetry
            then some GoError.ErrorMaxRetryReached else none),
         { c with count := wrapInt (c.count + ((k : Int) + 1)) }) := by
  cases k with
  | zero => simp [stateAfter, FixedDurationClosure.call]
  | succ k =>
    rw [FixedDurationClosure.stateAfter_succ]
    simp only [FixedDurationClosure.call, wrapInt_add_wrapInt, Nat.cast_succ]
    have h : c.count + ((k : Int) + 1) + 1 = c.count + ((k : Int) + 1 + 1) := by ring
    rw [h]

/-! ## The loop: general lemmas -/

section loop

variable {π : Type} (operation : Nat → Option GoError) (retryPolicy : RetryPolicy π)
  (token : Nat → SelectCase)

theorem attempts_append (a b : List Event) : attempts (a ++ b) = attempts a + attempts b := by
  induction a with
  | nil => simp [attempts]
  | cons e a ih =>
    cases e
    · simp [attempts, ih]; omega
    · simp [attempts, ih]
    · simp [attempts, ih]

theorem policyCalls_append (a b : List Event) :
    policyCalls (a ++ b) = policyCalls a + policyCalls b := by
  induction a with
  | nil => simp [policyCalls]
  | cons e a ih =>
    cases e
    · simp [policyCalls, ih]
    · simp [policyCalls, ih]; omega
    · simp [policyCalls, ih]

theorem waits_append (a b : List Event) : waits (a ++ b) = waits a ++ waits b := by
  induction a with
  | nil => simp [waits]
  | cons e a ih => cases e <;> simp [waits, ih]

theorem attempts_failedRounds (m i : Nat) (s : π) :
    attempts (failedRounds operation retryPolicy m i s) = m := by
  induction m generalizing i s with
  | zero => rfl
  | succ m ih => simp [failedRounds, attempts, ih]

theorem policyCalls_failedRounds (m i : Nat) (s : π) :
    policyCalls (failedRounds operation retryPolicy m i s) = m := by
  induction m generalizing i s with
  | zero => rfl
  | succ m ih => simp [failedRounds, policyCalls, ih]

theorem waits_failedRounds (m i : Nat) (s : π) :
    waits (failedRounds operation retryPolicy m i s)
      = (List.range m).map (fun k => (retryPolicy (stateAfter retryPolicy k s)).1.1) := by
  induction m generalizing i s with
  | zero => rfl
  | succ m ih =>
    have e : failedRounds operation retryPolicy (m + 1) i s
        = Event.operation (operation i) :: Event.policy (retryPolicy s).1.1 none
          :: Event.wait (retryPolicy s).1.1 none
          :: failedRounds operation retryPolicy m (i + 1) (retryPolicy s).2 := rfl
    rw [e]
    simp only [waits, ih, List.range_succ_eq_map, List.map_cons, List.map_map, stateAfter]
    rfl

/-- The loop returns `nil` at once when the operation reports no error. -/
theorem retryLoop_success (fuel i : Nat) (s : π) (h : operation i = none) :
    retryLoop operation retryPolicy token (fuel + 1) i s
      = some { result := none, policyState := s, trace := [Event.operation none] } := by
  simp [retryLoop, h]

/-- The loop returns the policy violation when the operation fails and the
policy reports one. -/
theorem retryLoop_violation (fuel i : Nat) (s : π) (err v : GoError)
    (h : operation i = some err) (hp : (retryPolicy s).1.2 = some v) :
    retryLoop operation retryPolicy token (fuel + 1) i s
      = some { result := some v, policyState := (retryPolicy s).2,
               trace := [Event.operation (some err),
                         Event.policy (retryPolicy s).1.1 (some v)] } := by
  rcases hs : retryPolicy s with ⟨⟨d, pv⟩, s'⟩
  rw [hs] at hp
  simp only at hp
  subst hp
  simp [retryLoop, h, hs]

/-- The loop returns the error of `Wait` when the operation fails, the policy
allows a retry and the wait returns an error. -/
theorem retryLoop_waitError (fuel i : Nat) (s : π) (err werr : GoError)
    (h : operation i = some err) (hp : (retryPolicy s).1.2 = none)
    (hw : Wait (retryPolicy s).1.1 (token i) = some werr) :
    retryLoop operation retryPolicy token (fuel + 1) i s
      = some { result := some werr, policyState := (retryPolicy s).2,
               trace := [Event.operation (some err), Event.policy (retryPolicy s).1.1 none,
                         Event.wait (retryPolicy s).1.1 (some werr)] } := by
  rcases hs : retryPolicy s with ⟨⟨d, pv⟩, s'⟩
  rw [hs] at hp hw
  simp only at hp hw
  subst hp
  simp [retryLoop, h, hs, hw]

/-- The loop goes round when the operation fails, the policy allows a retry and
the wait returns `nil`. -/
theorem retryLoop_round (fuel i : Nat) (s : π)
    (h : operation i ≠ none) (hp : (retryPolicy s).1.2 = none)
    (hw : Wait (retryPolicy s).1.1 (token i) = none) :
    retryLoop operation retryPolicy token (fuel + 1) i s
      = (retryLoop operation retryPolicy token fuel (i + 1) (retryPolicy s).2).map
          (Run.after (failedRounds operation retryPolicy 1 i s)) := by
  rcases hs : retryPolicy s with ⟨⟨d, pv⟩, s'⟩
  rw [hs] at hp hw
  simp only at hp hw
  subst hp
  rcases ho : operation i with _ | err
  · exact absurd ho h
  · simp [retryLoop, ho, hs, hw, failedRounds]

/-- After `m` rounds in which the operation fails, the policy allows a retry
and the wait returns `nil`, the loop is at iteration `i + m` with the policy
closure called `m` times. -/
theorem retryLoop_rounds (m fuel i : Nat) (s : π)
    (h : ∀ k, k < m → operation (i + k) ≠ none)
    (hp : ∀ k, k < m → (retryPolicy (stateAfter retryPolicy k s)).1.2 = none)
    (hw : ∀ k, k < m → ∀ d, Wait d (token (i + k)) = none) :
    retryLoop operation retryPolicy token (fuel + m) i s
      = (retryLoop operation retryPolicy token fuel (i + m) (stateAfter retryPolicy m s)).map
          (Run.after (failedRounds operation retryPolicy m i s)) := by
  induction m generalizing i s with
  | zero =>
    simp only [failedRounds, stateAfter, Nat.add_zero]
    cases retryLoop operation retryPolicy token fuel i s <;> simp [Run.after]
  | succ m ih =>
    have h0 := h 0 (Nat.succ_pos m)
    have hp0 := hp 0 (Nat.succ_pos m)
    have hw0 := hw 0 (Nat.succ_pos m) (retryPolicy s).1.1
    simp only [Nat.add_zero, stateAfter] at h0 hp0 hw0
    rw [← Nat.add_assoc, retryLoop_round operation retryPolicy token (fuel + m) i s h0 hp0 hw0,
      ih (i + 1) (retryPolicy s).2]
    · simp only [Option.map_map, stateAfter]
      have hi : i + 1 + m = i + (m + 1) := by omega
      rw [hi]
      congr 1
    · intro k hk
      have := h (k + 1) (Nat.succ_lt_succ hk)
      rwa [show i + 1 + k = i + (k + 1) by omega]
    · intro k hk
      exact hp (k + 1) (Nat.succ_lt_succ hk)
    · intro k hk d
      have := hw (k + 1) (Nat.succ_lt_succ hk) d
      rwa [show i + 1 + k = i + (k + 1) by omega]

theorem stateAfter_step (m : Nat) (s : π) :
    (retryPolicy (stateAfter retryPolicy m s)).2 = stateAfter retryPolicy (m + 1) s := by
  induction m generalizing s with
  | zero => rfl
  | succ m ih => rw [stateAfter, stateAfter, ih]

/-- The delays returned by the first `m` calls of a policy closure. -/
theorem waits_failedRounds_const (m i : Nat) (s : π) (p : Duration)
    (h : ∀ k, k < m → (retryPolicy (stateAfter retryPolicy k s)).1.1 = p) :
    waits (failedRounds operation retryPolicy m i s) = List.replicate m p := by
  rw [waits_failedRounds]
  apply List.ext_getElem
  · simp
  · intro k h₁ h₂
    simp only [List.length_map, List.length_range] at h₁
    simp [h k h₁]

/-- A run in which the operation fails `m + 1` times, the policy allows the
first `m` retries and reports a violation on call `m + 1`, and the first `m`
waits return `nil`. -/
theorem retryLoop_exhausted (m fuel i : Nat) (s : π) (v : GoError)
    (h : ∀ k, k ≤ m → operation (i + k) ≠ none)
    (hp : ∀ k, k < m → (retryPolicy (stateAfter retryPolicy k s)).1.2 = none)
    (hv : (retryPolicy (stateAfter retryPolicy m s)).1.2 = some v)
    (hw : ∀ k, k < m → ∀ d, Wait d (token (i + k)) = none)
    (hfuel : m + 1 ≤ fuel) :
    ∃ run, retryLoop operation retryPolicy token fuel i s = some run
      ∧ run.result = some v
      ∧ run.policyState = stateAfter retryPolicy (m + 1) s
      ∧ run.trace = failedRounds operation retryPolicy m i s
          ++ [Event.operation (operation (i + m)),
              Event.policy (retryPolicy (stateAfter retryPolicy m s)).1.1 (some v)] := by
  obtain ⟨f, rfl⟩ : ∃ f, fuel = f + 1 + m := ⟨fuel - (m + 1), by omega⟩
  rw [retryLoop_rounds operation retryPolicy token m (f + 1) i s
    (fun k hk => h k (Nat.le_of_lt hk)) hp hw]
  rcases ho : operation (i + m) with _ | err
  · exact absurd ho (h m (Nat.le_refl m))
  · rw [retryLoop_violation operation retryPolicy token f (i + m) _ err v ho hv]
    exact ⟨_, rfl, rfl, stateAfter_step retryPolicy m s, rfl⟩

/-- A run in which the operation fails `m` times and then succeeds, the policy
allows the `m` retries and the `m` waits return `nil`. -/
theorem retryLoop_succeeds (m fuel i : Nat) (s : π)
    (h : ∀ k, k < m → operation (i + k) ≠ none)
    (hs : operation (i + m) = none)
    (hp : ∀ k, k < m → (retryPolicy (stateAfter retryPolicy k s)).1.2 = none)
    (hw : ∀ k, k < m → ∀ d, Wait d (token (i + k)) = none)
    (hfuel : m + 1 ≤ fuel) :
    ∃ run, retryLoop operation retryPolicy token fuel i s = some run
      ∧ run.result = none
      ∧ run.policyState = stateAfter retryPolicy m s
      ∧ run.trace = failedRounds operation retryPolicy m i s ++ [Event.operation none] := by
  obtain ⟨f, rfl⟩ : ∃ f, fuel = f + 1 + m := ⟨fuel - (m + 1), by omega⟩
  rw [retryLoop_rounds operation retryPolicy token m (f + 1) i s h hp hw,
    retryLoop_success operation retryPolicy token f (i + m) _ hs]
  exact ⟨_, rfl, rfl, rfl, rfl⟩

/-- A run in which the operation fails `m + 1` times, the policy allows
`m + 1` retries, the first `m` waits return `nil` and wait `m + 1` returns an
error. -/
theorem retryLoop_interrupted (m fuel i : Nat) (s : π) (werr : GoError)
    (h : ∀ k, k ≤ m → operation (i + k) ≠ none)
    (hp : ∀ k, k ≤ m → (retryPolicy (stateAfter retryPolicy k s)).1.2 = none)
    (hw : ∀ k, k < m → ∀ d, Wait d (token (i + k)) = none)
    (hc : ∀ d, Wait d (token (i + m)) = some werr)
    (hfuel : m + 1 ≤ fuel) :
    ∃ run, retryLoop operation retryPolicy token fuel i s = some run
      ∧ run.result = some werr
      ∧ run.policyState = stateAfter retryPolicy (m + 1) s
      ∧ run.trace = failedRounds operation retryPolicy m i s
          ++ [Event.operation (operation (i + m)),
              Event.policy (retryPolicy (stateAfter retryPolicy m s)).1.1 none,
              Event.wait (retryPolicy (stateAfter retryPolicy m s)).1.1 (some werr)] := by
  obtain ⟨f, rfl⟩ : ∃ f, fuel = f + 1 + m := ⟨fuel - (m + 1), by omega⟩
  rw [retryLoop_rounds operation retryPolicy token m (f + 1) i s
    (fun k hk => h k (Nat.le_of_lt hk)) (fun k hk => hp k (Nat.le_of_lt hk)) hw]
  rcases ho : operation (i + m) with _ | err
  · exact absurd ho (h m (Nat.le_refl m))
  · rw [retryLoop_waitError operation retryPolicy token f (i + m) _ err werr ho
      (hp m (Nat.le_refl m)) (hc _)]
    exact ⟨_, rfl, rfl, stateAfter_step retryPolicy m s, rfl⟩

end loop

/-! ## FixedDuration -/

/-- A run on a `FixedDuration` closure in state `c` with an operation that
fails `m + 1` times from iteration `i` on and `m` waits that return `nil`,
when the counter stays below `maxRetry` for `m` calls and reaches it on call
`m + 1`. -/
theorem fixedDuration_exhausts (c : FixedDurationClosure) (m : Nat)
    (operation : Nat → Option GoError) (token : Nat → SelectCase) (fuel i : Nat)
    (hlt : ∀ k : Nat, k < m → wrapInt (c.count + ((k : Int) + 1)) < c.maxRetry)
    (hge : wrapInt (c.count + ((m : Int) + 1)) ≥ c.maxRetry)
    (h : ∀ k, k ≤ m → operation (i + k) ≠ none)
    (hw : ∀ k, k < m → ∀ d, Wait d (token (i + k)) = none)
    (hfuel : m + 1 ≤ fuel) :
    ∃ run, retryLoop operation FixedDurationClosure.call token fuel i c = some run
      ∧ run.result = some GoError.ErrorMaxRetryReached
      ∧ attempts run.trace = m + 1
      ∧ policyCalls run.trace = m + 1
      ∧ waits run.trace = List.replicate m c.retryPeriod
      ∧ run.policyState.count = wrapInt (c.count + ((m : Int) + 1)) := by
  obtain ⟨run, hrun, hres, hst, htr⟩ :=
    retryLoop_exhausted operation FixedDurationClosure.call token m fuel i c
      GoError.ErrorMaxRetryReached h
      (fun k hk => by
        rw [FixedDurationClosure.call_stateAfter]
        simp only [ge_iff_le, ite_eq_right_iff]
        intro hle
        exact absurd (hlt k hk) (not_lt.mpr hle))
      (by rw [FixedDurationClosure.call_stateAfter]; simp only [if_pos hge])
      hw hfuel
  refine ⟨run, hrun, hres, ?_, ?_, ?_, ?_⟩
  · rw [htr, attempts_append, attempts_failedRounds]; rfl
  · rw [htr, policyCalls_append, policyCalls_failedRounds]; rfl
  · rw [htr, waits_append, waits_failedRounds_const operation _ m i c c.retryPeriod
      (fun k _ => by rw [FixedDurationClosure.call_stateAfter])]
    simp [waits]
  · rw [hst, FixedDurationClosure.stateAfter_succ]

/-- A run on a `FixedDuration` closure in state `c` with an operation that
fails `m` times from iteration `i` on and then succeeds, and `m` waits that
return `nil`, when the counter stays below `maxRetry` for `m` calls. -/
theorem fixedDuration_succeeds (c : FixedDurationClosure) (m : Nat)
    (operation : Nat → Option GoError) (token : Nat → SelectCase) (fuel i : Nat)
    (hlt : ∀ k : Nat, k < m → wrapInt (c.count + ((k : Int) + 1)) < c.maxRetry)
    (h : ∀ k, k < m → operation (i + k) ≠ none)
    (hs : operation (i + m) = none)
    (hw : ∀ k, k < m → ∀ d, Wait d (token (i + k)) = none)
    (hfuel : m + 1 ≤ fuel) :
    ∃ run, retryLoop operation FixedDurationClosure.call token fuel i c = some run
      ∧ run.result = none
      ∧ attempts run.trace = m + 1
      ∧ policyCalls run.trace = m
      ∧ waits run.trace = List.replicate m c.retryPeriod
      ∧ run.trace.getLast? = some (Event.operation none) := by
  obtain ⟨run, hrun, hres, _, htr⟩ :=
    retryLoop_succeeds operation FixedDurationClosure.call token m fuel i c h hs
      (fun k hk => by
        rw [FixedDurationClosure.call_stateAfter]
        simp only [ge_iff_le, ite_eq_right_iff]
        intro hle
        exact absurd (hlt k hk) (not_lt.mpr hle))
      hw hfuel
  refine ⟨run, hrun, hres, ?_, ?_, ?_, ?_⟩
  · rw [htr, attempts_append, attempts_failedRounds]; rfl
  · rw [htr, policyCalls_append, policyCalls_failedRounds]; rfl
  · rw [htr, waits_append, waits_failedRounds_const operation _ m i c c.retryPeriod
      (fun k _ => by rw [FixedDurationClosure.call_stateAfter])]
    simp [waits]
  · rw [htr]; simp

/-- C1, as amended: for every retryPeriod, every maxRetry and every call number
`k` with `1 ≤ k < 2^63` (the counter has not wrapped around), the `k`-th call
of a fresh `FixedDuration(retryPeriod, maxRetry)` closure returns the delay
`retryPeriod`, with `ErrorMaxRetryReached` if `k ≥ maxRetry` and `nil` if
`k < maxRetry`; the counter starts at zero and is `k` after `k` calls. -/
theorem C1_fixedDuration_kthCall (retryPeriod : Duration) (maxRetry : Int) (k : Nat)
    (hk : 1 ≤ k) (hwrap : (k : Int) < 9223372036854775808) :
    (FixedDuration retryPeriod maxRetry).count = 0
      ∧ (stateAfter FixedDurationClosure.call k (FixedDuration retryPeriod maxRetry)).count = k
      ∧ kthCall FixedDurationClosure.call (FixedDuration retryPeriod maxRetry) k
          = (retryPeriod,
             if (k : Int) ≥ maxRetry then some GoError.ErrorMaxRetryReached else none) := by
  obtain ⟨j, rfl⟩ : ∃ j, k = j + 1 := ⟨k - 1, by omega⟩
  have hj : wrapInt (0 + ((j : Int) + 1)) = (j : Int) + 1 := by
    push_cast at hwrap
    unfold wrapInt
    omega
  refine ⟨rfl, ?_, ?_⟩
  · rw [FixedDurationClosure.stateAfter_succ]
    simp only [FixedDuration, hj, Nat.cast_succ]
  · simp only [kthCall, Nat.add_sub_cancel, FixedDurationClosure.call_stateAfter, FixedDuration,
      hj, Nat.cast_succ]

/-- C1, an instance: the third call of a fresh `FixedDuration(10, 3)` closure
returns `(10, ErrorMaxRetryReached)`. -/
theorem C1_fixedDuration_kthCall_witness :
    (1 ≤ 3 ∧ ((3 : Nat) : Int) < 9223372036854775808)
      ∧ (FixedDuration 10 3).count = 0
      ∧ (stateAfter FixedDurationClosure.call 3 (FixedDuration 10 3)).count = ((3 : Nat) : Int)
      ∧ kthCall FixedDurationClosure.call (FixedDuration 10 3) 3
          = (10, if ((3 : Nat) : Int) ≥ 3 then some GoError.ErrorMaxRetryReached else none) :=
  ⟨⟨by decide, by decide⟩, C1_fixedDuration_kthCall 10 3 3 (by decide) (by decide)⟩

/-- C1 as stated fails: call number `2^63` of a fresh `FixedDuration(0, 5)`
closure finds the counter wrapped around to `-2^63` and returns `nil`, although
`2^63 ≥ 5`. -/
theorem C1_counterexample :
    1 ≤ 9223372036854775808
      ∧ ((9223372036854775808 : Nat) : Int) ≥ 5
      ∧ (stateAfter FixedDurationClosure.call 9223372036854775808 (FixedDuration 0 5)).count
          = -9223372036854775808
      ∧ kthCall FixedDurationClosure.call (FixedDuration 0 5) 9223372036854775808
          = (0, none) := by
  refine ⟨by decide, by decide, ?_, ?_⟩
  · rw [show (9223372036854775808 : Nat) = 9223372036854775807 + 1 from rfl,
      FixedDurationClosure.stateAfter_succ]
    decide
  · rw [kthCall, show (9223372036854775808 : Nat) - 1 = 9223372036854775807 from rfl,
      FixedDurationClosure.call_stateAfter]
    decide

/-- C2: for every maxRetry `n ≥ 1` (a Go `int`, so `n < 2^63`) and every
retryPeriod `p`, `RetryOperation` with an operation that fails on every
attempt, a fresh `FixedDuration(p, n)` policy and a token that is never
triggered returns `ErrorMaxRetryReached` (given fuel for `n` iterations) after
exactly `n` invocations of the operation and exactly `n - 1` waits, each of
duration `p`, so that the time waited is `(n - 1) * p`. -/
theorem C2_alwaysFailing_fixedDuration (p : Duration) (n : Nat)
    (operation : Nat → Option GoError) (token : Nat → SelectCase) (fuel : Nat)
    (hn : 1 ≤ n) (hint : (n : Int) < 9223372036854775808)
    (hop : alwaysFails operation) (htok : neverTriggered token) (hfuel : n ≤ fuel) :
    ∃ run, RetryOperation fuel operation FixedDurationClosure.call (FixedDuration p n) token
        = some run
      ∧ run.result = some GoError.ErrorMaxRetryReached
      ∧ attempts run.trace = n
      ∧ waits run.trace = List.replicate (n - 1) p
      ∧ (waits run.trace).sum = ((n : Int) - 1) * p := by
  obtain ⟨m, rfl⟩ : ∃ m, n = m + 1 := ⟨n - 1, by omega⟩
  push_cast at hint
  obtain ⟨run, hrun, hres, hatt, _, hwaits, _⟩ :=
    fixedDuration_exhausts (FixedDuration p ((m + 1 : Nat) : Int)) m operation token fuel 0
      (fun k hk => by
        simp only [FixedDuration, Nat.cast_succ]
        unfold wrapInt
        omega)
      (by
        simp only [FixedDuration, Nat.cast_succ]
        unfold wrapInt
        omega)
      (fun k _ => hop _)
      (fun k _ d => by rw [htok]; rfl)
      hfuel
  refine ⟨run, hrun, hres, hatt, hwaits, ?_⟩
  rw [hwaits]
  simp [FixedDuration, List.sum_replicate]

/-- C2, two instances: `FixedDuration(10, 3)` with an operation that always
fails gives three attempts and two waits of 10, and `FixedDuration(10, 1)`
gives one attempt and no wait. -/
theorem C2_alwaysFailing_fixedDuration_witness :
    (1 ≤ 3 ∧ ((3 : Nat) : Int) < 9223372036854775808
        ∧ alwaysFails (fun _ => some (GoError.other 0))
        ∧ neverTriggered (fun _ => SelectCase.timer) ∧ 3 ≤ 3)
      ∧ (∃ run, RetryOperation 3 (fun _ => some (GoError.other 0)) FixedDurationClosure.call
            (FixedDuration 10 ((3 : Nat) : Int)) (fun _ => SelectCase.timer) = some run
          ∧ run.result = some GoError.ErrorMaxRetryReached
          ∧ attempts run.trace = 3
          ∧ waits run.trace = List.replicate (3 - 1) 10
          ∧ (waits run.trace).sum = (((3 : Nat) : Int) - 1) * 10)
      ∧ (∃ run, RetryOperation 1 (fun _ => some (GoError.other 0)) FixedDurationClosure.call
            (FixedDuration 10 ((1 : Nat) : Int)) (fun _ => SelectCase.timer) = some run
          ∧ run.result = some GoError.ErrorMaxRetryReached
          ∧ attempts run.trace = 1
          ∧ waits run.trace = List.replicate (1 - 1) 10
          ∧ (waits run.trace).sum = (((1 : Nat) : Int) - 1) * 10) :=
  ⟨⟨by decide, by decide, fun _ => by simp, fun _ => rfl, by decide⟩,
    C2_alwaysFailing_fixedDuration 10 3 (fun _ => some (GoError.other 0))
      (fun _ => SelectCase.timer) 3 (by decide) (by decide) (fun _ => by simp) (fun _ => rfl)
      (by decide),
    C2_alwaysFailing_fixedDuration 10 1 (fun _ => some (GoError.other 0))
      (fun _ => SelectCase.timer) 1 (by decide) (by decide) (fun _ => by simp) (fun _ => rfl)
      (by decide)⟩

/-- C3: for every `K ≥ 1`, every retryPeriod `p` and every maxRetry `≥ K`,
`RetryOperation` with an operation that fails on its first `K - 1` attempts and
succeeds on attempt `K`, a fresh `FixedDuration(p, maxRetry)` policy and a
token that is never triggered returns `nil` (given fuel for `K` iterations),
invokes the operation exactly `K` times, the successful invocation being the
last call of the run, and performs exactly `K - 1` waits of duration `p`. -/
theorem C3_succeeds_on_attempt_K (p : Duration) (maxRetry : Int) (K : Nat)
    (operation : Nat → Option GoError) (token : Nat → SelectCase) (fuel : Nat)
    (hK : 1 ≤ K) (hmax : (K : Int) ≤ maxRetry)
    (hfail : ∀ i, i + 1 < K → operation i ≠ none) (hsucc : operation (K - 1) = none)
    (htok : neverTriggered token) (hfuel : K ≤ fuel) :
    ∃ run, RetryOperation fuel operation FixedDurationClosure.call (FixedDuration p maxRetry)
        token = some run
      ∧ run.result = none
      ∧ attempts run.trace = K
      ∧ run.trace.getLast? = some (Event.operation none)
      ∧ waits run.trace = List.replicate (K - 1) p := by
  obtain ⟨m, rfl⟩ : ∃ m, K = m + 1 := ⟨K - 1, by omega⟩
  push_cast at hmax
  obtain ⟨run, hrun, hres, hatt, _, hwaits, hlast⟩ :=
    fixedDuration_succeeds (FixedDuration p maxRetry) m operation token fuel 0
      (fun k hk => by
        simp only [FixedDuration]
        unfold wrapInt
        omega)
      (fun k hk => by rw [Nat.zero_add]; exact hfail k (by omega))
      (by rw [Nat.zero_add]; exact hsucc)
      (fun k _ d => by rw [htok]; rfl)
      hfuel
  exact ⟨run, hrun, hres, hatt, hlast, hwaits⟩

/-- C3, an instance: the operation fails twice and then succeeds, with
`FixedDuration(5, 10)`: `nil`, three invocations, two waits of 5. -/
theorem C3_succeeds_on_attempt_K_witness :
    (1 ≤ 3 ∧ ((3 : Nat) : Int) ≤ 10
        ∧ (∀ i, i + 1 < 3 → (fun i => if i < 2 then some (GoError.other 7) else none) i ≠ none)
        ∧ (fun i => if i < 2 then some (GoError.other 7) else none) (3 - 1) = none
        ∧ neverTriggered (fun _ => SelectCase.timer) ∧ 3 ≤ 3)
      ∧ ∃ run, RetryOperation 3 (fun i => if i < 2 then some (GoError.other 7) else none)
            FixedDurationClosure.call (FixedDuration 5 10) (fun _ => SelectCase.timer) = some run
          ∧ run.result = none
          ∧ attempts run.trace = 3
          ∧ run.trace.getLast? = some (Event.operation none)
          ∧ waits run.trace = List.replicate (3 - 1) 5 :=
  ⟨⟨by decide, by decide, fun i hi => by simp; omega, by decide, fun _ => rfl, by decide⟩,
    C3_succeeds_on_attempt_K 5 10 3 (fun i => if i < 2 then some (GoError.other 7) else none)
      (fun _ => SelectCase.timer) 3 (by decide) (by decide) (fun i hi => by simp; omega)
      (by decide) (fun _ => rfl) (by decide)⟩

/-! ## RetryOperation with any policy -/

/-- C4: for every `j ≥ 1`, if the operation fails on attempts `1..j`, the
policy reports no violation on its calls `1..j`, waits `1..j-1` end by the
timer and wait `j` receives the value sent by `Cancel`, then `RetryOperation`
returns `ErrorTaskCancelled` (given fuel for `j` iterations), the operation
and the policy are each called exactly `j` times, and the interrupted wait is
the last call of the run. -/
theorem C4_cancelled_in_wait {π : Type} (operation : Nat → Option GoError)
    (retryPolicy : RetryPolicy π) (s : π) (token : Nat → SelectCase) (j fuel : Nat)
    (hj : 1 ≤ j)
    (hfail : ∀ i, i < j → operation i ≠ none)
    (hpol : ∀ k, 1 ≤ k → k ≤ j → (kthCall retryPolicy s k).2 = none)
    (htimer : ∀ i, i + 1 < j → token i = SelectCase.timer)
    (hcancel : token (j - 1) = SelectCase.cancelled)
    (hfuel : j ≤ fuel) :
    ∃ run, RetryOperation fuel operation retryPolicy s token = some run
      ∧ run.result = some GoError.ErrorTaskCancelled
      ∧ attempts run.trace = j
      ∧ policyCalls run.trace = j
      ∧ run.trace.getLast?
          = some (Event.wait (kthCall retryPolicy s j).1 (some GoError.ErrorTaskCancelled)) := by
  obtain ⟨m, rfl⟩ : ∃ m, j = m + 1 := ⟨j - 1, by omega⟩
  obtain ⟨run, hrun, hres, _, htr⟩ :=
    retryLoop_interrupted operation retryPolicy token m fuel 0 s GoError.ErrorTaskCancelled
      (fun k hk => by rw [Nat.zero_add]; exact hfail k (by omega))
      (fun k hk => by
        have := hpol (k + 1) (by omega) (by omega)
        simpa [kthCall] using this)
      (fun k hk d => by rw [Nat.zero_add, htimer k (by omega)]; rfl)
      (fun d => by
        rw [Nat.zero_add]
        rw [Nat.add_sub_cancel] at hcancel
        rw [hcancel]; rfl)
      hfuel
  refine ⟨run, hrun, hres, ?_, ?_, ?_⟩
  · rw [htr, attempts_append, attempts_failedRounds]; rfl
  · rw [htr, policyCalls_append, policyCalls_failedRounds]; rfl
  · rw [htr]; simp [kthCall]

/-- C4, an instance: the second wait of a run on `FixedDuration(3600, 5)` is
interrupted by `Cancel`. -/
theorem C4_cancelled_in_wait_witness :
    (1 ≤ 2
        ∧ (∀ i, i < 2 → (fun _ => some (GoError.other 0)) i ≠ none)
        ∧ (∀ k, 1 ≤ k → k ≤ 2 →
            (kthCall FixedDurationClosure.call (FixedDuration 3600 5) k).2 = none)
        ∧ (∀ i, i + 1 < 2 →
            (fun i => if i = 1 then SelectCase.cancelled else SelectCase.timer) i
              = SelectCase.timer)
        ∧ (fun i => if i = 1 then SelectCase.cancelled else SelectCase.timer) (2 - 1)
            = SelectCase.cancelled
        ∧ 2 ≤ 2)
      ∧ ∃ run, RetryOperation 2 (fun _ => some (GoError.other 0)) FixedDurationClosure.call
            (FixedDuration 3600 5)
            (fun i => if i = 1 then SelectCase.cancelled else SelectCase.timer) = some run
          ∧ run.result = some GoError.ErrorTaskCancelled
          ∧ attempts run.trace = 2
          ∧ policyCalls run.trace = 2
          ∧ run.trace.getLast?
              = some (Event.wait (kthCall FixedDurationClosure.call (FixedDuration 3600 5) 2).1
                  (some GoError.ErrorTaskCancelled)) :=
  have hpol : ∀ k, 1 ≤ k → k ≤ 2 →
      (kthCall FixedDurationClosure.call (FixedDuration 3600 5) k).2 = none := by
    intro k h₁ h₂
    obtain rfl | rfl : k = 1 ∨ k = 2 := by omega
    · decide
    · decide
  have htimer : ∀ i, i + 1 < 2 →
      (fun i => if i = 1 then SelectCase.cancelled else SelectCase.timer) i
        = SelectCase.timer := by
    intro i hi
    obtain rfl : i = 0 := by omega
    rfl
  ⟨⟨by decide, fun _ _ => by simp, hpol, htimer, rfl, by decide⟩,
    C4_cancelled_in_wait (fun _ => some (GoError.other 0)) FixedDurationClosure.call
      (FixedDuration 3600 5) (fun i => if i = 1 then SelectCase.cancelled else SelectCase.timer)
      2 2 (by decide) (fun _ _ => by simp) hpol htimer rfl (by decide)⟩

theorem stateAfter_byCallNumber (f : Nat → Duration × Option GoError) (k calls : Nat) :
    stateAfter (byCallNumber f) k calls = calls + k := by
  induction k generalizing calls with
  | zero => rfl
  | succ k ih => rw [stateAfter, ih]; simp only [byCallNumber]; omega

theorem kthCall_byCallNumber (f : Nat → Duration × Option GoError) (k : Nat) (hk : 1 ≤ k) :
    kthCall (byCallNumber f) 0 k = f k := by
  rw [kthCall, stateAfter_byCallNumber]
  simp only [byCallNumber]
  congr 1
  omega

/-- C5: for every `n ≥ 1` and every policy closure that reports no violation
on its calls `1..n-1` and the violation `e` on call `n` (in particular every
policy whose result depends only on the call number), `RetryOperation` with an
operation that fails on every attempt and a token that is never triggered
returns exactly `e` (given fuel for `n` iterations) after exactly `n`
invocations of the operation, `n` calls of the policy and `n - 1` waits; the
terminal policy call is the last call of the run, so no wait follows it. -/
theorem C5_policy_exhausted {π : Type} (operation : Nat → Option GoError)
    (retryPolicy : RetryPolicy π) (s : π) (token : Nat → SelectCase) (n fuel : Nat)
    (e : GoError)
    (hn : 1 ≤ n)
    (hpol : ∀ k, 1 ≤ k → k < n → (kthCall retryPolicy s k).2 = none)
    (hterm : (kthCall retryPolicy s n).2 = some e)
    (hop : alwaysFails operation) (htok : neverTriggered token) (hfuel : n ≤ fuel) :
    ∃ run, RetryOperation fuel operation retryPolicy s token = some run
      ∧ run.result = some e
      ∧ attempts run.trace = n
      ∧ policyCalls run.trace = n
      ∧ (waits run.trace).length = n - 1
      ∧ run.trace.getLast? = some (Event.policy (kthCall retryPolicy s n).1 (some e)) := by
  obtain ⟨m, rfl⟩ : ∃ m, n = m + 1 := ⟨n - 1, by omega⟩
  obtain ⟨run, hrun, hres, _, htr⟩ :=
    retryLoop_exhausted operation retryPolicy token m fuel 0 s e
      (fun k _ => hop _)
      (fun k hk => by
        have := hpol (k + 1) (by omega) (by omega)
        simpa [kthCall] using this)
      (by simpa [kthCall] using hterm)
      (fun k _ d => by rw [htok]; rfl)
      hfuel
  refine ⟨run, hrun, hres, ?_, ?_, ?_, ?_⟩
  · rw [htr, attempts_append, attempts_failedRounds]; rfl
  · rw [htr, policyCalls_append, policyCalls_failedRounds]; rfl
  · rw [htr, waits_append, waits_failedRounds]; simp [waits]
  · rw [htr]; simp [kthCall]

/-- C5, an instance: a policy that depends only on the call number, with
delays 1, 2, 3 and the violation `other 9` on its third call. -/
theorem C5_policy_exhausted_witness :
    (1 ≤ 3
        ∧ (∀ k, 1 ≤ k → k < 3 →
            (kthCall (byCallNumber
              (fun k => ((k : Int), if k = 3 then some (GoError.other 9) else none))) 0 k).2
              = none)
        ∧ (kthCall (byCallNumber
              (fun k => ((k : Int), if k = 3 then some (GoError.other 9) else none))) 0 3).2
            = some (GoError.other 9)
        ∧ alwaysFails (fun _ => some (GoError.other 0))
        ∧ neverTriggered (fun _ => SelectCase.timer) ∧ 3 ≤ 3)
      ∧ ∃ run, RetryOperation 3 (fun _ => some (GoError.other 0))
            (byCallNumber (fun k => ((k : Int), if k = 3 then some (GoError.other 9) else none)))
            0 (fun _ => SelectCase.timer) = some run
          ∧ run.result = some (GoError.other 9)
          ∧ attempts run.trace = 3
          ∧ policyCalls run.trace = 3
          ∧ (waits run.trace).length = 3 - 1
          ∧ run.trace.getLast?
              = some (Event.policy (kthCall (byCallNumber
                  (fun k => ((k : Int), if k = 3 then some (GoError.other 9) else none))) 0 3).1
                  (some (GoError.other 9))) :=
  have hpol : ∀ k, 1 ≤ k → k < 3 →
      (kthCall (byCallNumber
        (fun k => ((k : Int), if k = 3 then some (GoError.other 9) else none))) 0 k).2
        = none := by
    intro k h₁ h₂
    rw [kthCall_byCallNumber _ k h₁]
    simp only [ite_eq_right_iff]
    omega
  ⟨⟨by decide, hpol, by decide, fun _ => by simp, fun _ => rfl, by decide⟩,
    C5_policy_exhausted (fun _ => some (GoError.other 0))
      (byCallNumber (fun k => ((k : Int), if k = 3 then some (GoError.other 9) else none)))
      0 (fun _ => SelectCase.timer) 3 3 (GoError.other 9) (by decide) hpol (by decide)
      (fun _ => by simp) (fun _ => rfl) (by decide)⟩

section shape
variable {π : Type} (operation : Nat → Option GoError) (retryPolicy : RetryPolicy π)
  (token : Nat → SelectCase)

/-- How a run that returns ends: on a successful attempt, on a policy
violation, or on an error of `Wait`. -/
theorem retryLoop_exit (fuel i : Nat) (s : π) (run : Run π)
    (h : retryLoop operation retryPolicy token fuel i s = some run) :
    (run.result = none ∧ ∃ pre, run.trace = pre ++ [Event.operation none])
      ∨ (∃ pre e d v s', run.result = some v
          ∧ retryPolicy s' = ((d, some v), run.policyState)
          ∧ run.trace = pre ++ [Event.operation (some e), Event.policy d (some v)])
      ∨ (∃ pre e d w s' k, run.result = some w
          ∧ (retryPolicy s').1 = (d, none)
          ∧ Wait d (token k) = some w
          ∧ run.trace = pre ++ [Event.operation (some e), Event.policy d none,
              Event.wait d (some w)]) := by
  induction fuel generalizing i s run with
  | zero => simp [retryLoop] at h
  | succ fuel ih =>
    rcases ho : operation i with _ | err
    · simp only [retryLoop, ho, Option.some.injEq] at h
      subst h
      exact Or.inl ⟨rfl, [], rfl⟩
    · rcases hs : retryPolicy s with ⟨⟨d, _ | v⟩, s'⟩
      · rcases hw : Wait d (token i) with _ | werr
        · simp only [retryLoop, ho, hs, hw, Option.map_eq_some'] at h
          obtain ⟨r, hr, rfl⟩ := h
          rcases ih (i + 1) s' r hr with ⟨h₁, pre, h₂⟩ | ⟨pre, e, d', v, t, h₁, h₂, h₃⟩
            | ⟨pre, e, d', w, t, k, h₁, h₂, h₃, h₄⟩
          · exact Or.inl ⟨h₁, [Event.operation (some err), Event.policy d none, Event.wait d none] ++ pre, by simp [Run.after, h₂]⟩
          · exact Or.inr (Or.inl ⟨[Event.operation (some err), Event.policy d none, Event.wait d none] ++ pre, e, d', v, t, h₁, h₂, by simp [Run.after, h₃]⟩)
          · exact Or.inr (Or.inr ⟨[Event.operation (some err), Event.policy d none, Event.wait d none] ++ pre, e, d', w, t, k, h₁, h₂, h₃, by simp [Run.after, h₄]⟩)
        · simp only [retryLoop, ho, hs, hw, Option.some.injEq] at h
          subst h
          exact Or.inr (Or.inr ⟨[], err, d, werr, s, i, rfl, by rw [hs], hw, rfl⟩)
      · simp only [retryLoop, ho, hs, Option.some.injEq] at h
        subst h
        exact Or.inr (Or.inl ⟨[], err, d, v, s, rfl, hs, rfl⟩)

/-- The result of a run and the final state of the policy closure depend on
the operation only through which attempts fail. -/
theorem retryLoop_congr (operation' : Nat → Option GoError)
    (h : ∀ i, operation i = none ↔ operation' i = none) (fuel i : Nat) (s : π) :
    (retryLoop operation retryPolicy token fuel i s).map (fun r => (r.result, r.policyState))
      = (retryLoop operation' retryPolicy token fuel i s).map
          (fun r => (r.result, r.policyState)) := by
  induction fuel generalizing i s with
  | zero => rfl
  | succ fuel ih =>
    rcases ho : operation i with _ | err
    · have ho' := (h i).mp ho
      simp [retryLoop, ho, ho']
    · rcases ho' : operation' i with _ | err'
      · rw [(h i).mpr ho'] at ho
        exact absurd ho (by simp)
      · rcases hs : retryPolicy s with ⟨⟨d, _ | v⟩, s'⟩
        · rcases hw : Wait d (token i) with _ | werr
          · simp only [retryLoop, ho, ho', hs, hw, Option.map_map]
            exact ih (i + 1) s'
          · simp [retryLoop, ho, ho', hs, hw]
        · simp [retryLoop, ho, ho', hs]
end shape

/-- C6: the error value reported by the operation does not influence the
result of `RetryOperation`: two runs with the same policy closure, the same
select outcomes and operations that fail on the same attempts (whatever errors
they report) both return, with the same result, or both have not returned yet;
and the result of a run that returns is `nil`, or the violation returned by
the last policy call, or the error returned by the last `Wait`. -/
theorem C6_operation_error_discarded {π : Type} (operation operation' : Nat → Option GoError)
    (retryPolicy : RetryPolicy π) (s : π) (token : Nat → SelectCase) (fuel : Nat)
    (hsame : ∀ i, operation i = none ↔ operation' i = none) :
    (RetryOperation fuel operation retryPolicy s token).map Run.result
        = (RetryOperation fuel operation' retryPolicy s token).map Run.result
      ∧ ∀ run, RetryOperation fuel operation retryPolicy s token = some run →
          run.result = none
            ∨ (∃ d v, run.trace.getLast? = some (Event.policy d (some v)) ∧ run.result = some v)
            ∨ (∃ d w, run.trace.getLast? = some (Event.wait d (some w)) ∧ run.result = some w)
      := by
  constructor
  · have h := retryLoop_congr operation retryPolicy token operation' hsame fuel 0 s
    have h' := congrArg (Option.map Prod.fst) h
    simpa only [Option.map_map] using h'
  · intro run hrun
    rcases retryLoop_exit operation retryPolicy token fuel 0 s run hrun with
      ⟨h₁, _⟩ | ⟨pre, e, d, v, t, h₁, _, h₃⟩ | ⟨pre, e, d, w, t, k, h₁, _, _, h₄⟩
    · exact Or.inl h₁
    · exact Or.inr (Or.inl ⟨d, v, by rw [h₃]; simp, h₁⟩)
    · exact Or.inr (Or.inr ⟨d, w, by rw [h₄]; simp, h₁⟩)

/-- C6, an instance: two operations that always fail, with different errors,
on `FixedDuration(10, 3)`. -/
theorem C6_operation_error_discarded_witness :
    (∀ i, (fun _ => some (GoError.other 1) : Nat → Option GoError) i = none
        ↔ (fun _ => some (GoError.other 2) : Nat → Option GoError) i = none)
      ∧ (RetryOperation 3 (fun _ => some (GoError.other 1)) FixedDurationClosure.call
            (FixedDuration 10 3) (fun _ => SelectCase.timer)).map Run.result
          = (RetryOperation 3 (fun _ => some (GoError.other 2)) FixedDurationClosure.call
            (FixedDuration 10 3) (fun _ => SelectCase.timer)).map Run.result
      ∧ (RetryOperation 3 (fun _ => some (GoError.other 1)) FixedDurationClosure.call
            (FixedDuration 10 3) (fun _ => SelectCase.timer)).map Run.result
          = some (some GoError.ErrorMaxRetryReached) :=
  ⟨fun _ => by simp,
    (C6_operation_error_discarded (fun _ => some (GoError.other 1))
      (fun _ => some (GoError.other 2)) FixedDurationClosure.call (FixedDuration 10 3)
      (fun _ => SelectCase.timer) 3 (fun _ => by simp)).1,
    by decide⟩

/-- C7: whenever `RetryOperation` returns, with a `FixedDuration` closure and
a token from which only values sent by `Cancel` are received, its result is
one of the three pairwise different values `nil`, `ErrorMaxRetryReached` and
`ErrorTaskCancelled`; it is `nil` exactly when the run ends with a successful
attempt, `ErrorMaxRetryReached` exactly when it ends with a failed attempt
followed by a policy call that reports a violation, and `ErrorTaskCancelled`
exactly when it ends with a failed attempt, a policy call that allows a retry
and a wait that returns an error. -/
theorem C7_three_outcomes (operation : Nat → Option GoError) (c : FixedDurationClosure)
    (token : Nat → SelectCase) (fuel : Nat) (run : Run FixedDurationClosure)
    (htok : ∀ i, token i = SelectCase.timer ∨ token i = SelectCase.cancelled)
    (hrun : RetryOperation fuel operation FixedDurationClosure.call c token = some run) :
    (run.result = none ∨ run.result = some GoError.ErrorMaxRetryReached
        ∨ run.result = some GoError.ErrorTaskCancelled)
      ∧ ((none : Option GoError) ≠ some GoError.ErrorMaxRetryReached
          ∧ (none : Option GoError) ≠ some GoError.ErrorTaskCancelled
          ∧ some GoError.ErrorMaxRetryReached ≠ some GoError.ErrorTaskCancelled)
      ∧ (run.result = none ↔ run.trace.getLast? = some (Event.operation none))
      ∧ (run.result = some GoError.ErrorMaxRetryReached
          ↔ ∃ e d v, List.IsSuffix
              [Event.operation (some e), Event.policy d (some v)] run.trace)
      ∧ (run.result = some GoError.ErrorTaskCancelled
          ↔ ∃ e d w, List.IsSuffix
              [Event.operation (some e), Event.policy d none, Event.wait d (some w)]
              run.trace) := by
  have hlast₂ : ∀ e d v, List.IsSuffix [Event.operation (some e), Event.policy d (some v)]
      run.trace → run.trace.getLast? = some (Event.policy d (some v)) := by
    rintro e d v ⟨t, ht⟩
    rw [← ht]; simp
  have hlast₃ : ∀ e d w, List.IsSuffix
      [Event.operation (some e), Event.policy d none, Event.wait d (some w)] run.trace →
      run.trace.getLast? = some (Event.wait d (some w)) := by
    rintro e d w ⟨t, ht⟩
    rw [← ht]; simp
  refine ⟨?_, ⟨by decide, by decide, by decide⟩, ?_⟩
  · rcases retryLoop_exit operation _ token fuel 0 c run hrun with
      ⟨h₁, _⟩ | ⟨pre, e, d, v, t, h₁, h₂, _⟩ | ⟨pre, e, d, w, t, k, h₁, _, h₃, _⟩
    · exact Or.inl h₁
    · have hv : v = GoError.ErrorMaxRetryReached := by
        simp only [FixedDurationClosure.call, Prod.mk.injEq] at h₂
        obtain ⟨⟨_, hv⟩, _⟩ := h₂
        split at hv
        · exact (Option.some.inj hv).symm
        · exact absurd hv (by simp)
      exact Or.inr (Or.inl (by rw [h₁, hv]))
    · have hw : w = GoError.ErrorTaskCancelled := by
        rcases htok k with hk | hk
        · rw [hk] at h₃; exact absurd h₃ (by simp [Wait])
        · rw [hk] at h₃; exact (Option.some.inj h₃).symm
      exact Or.inr (Or.inr (by rw [h₁, hw]))
  · rcases retryLoop_exit operation _ token fuel 0 c run hrun with
      ⟨h₁, pre, h₂⟩ | ⟨pre, e, d, v, t, h₁, h₂, h₃⟩ | ⟨pre, e, d, w, t, k, h₁, _, h₃, h₄⟩
    · have hl : run.trace.getLast? = some (Event.operation none) := by rw [h₂]; simp
      refine ⟨⟨fun _ => hl, fun _ => h₁⟩, ⟨fun h => ?_, ?_⟩, ⟨fun h => ?_, ?_⟩⟩
      · rw [h₁] at h; exact absurd h (by simp)
      · rintro ⟨e, d, v, hs⟩
        rw [hlast₂ e d v hs] at hl
        exact absurd hl (by simp)
      · rw [h₁] at h; exact absurd h (by simp)
      · rintro ⟨e, d, w, hs⟩
        rw [hlast₃ e d w hs] at hl
        exact absurd hl (by simp)
    · have hv : v = GoError.ErrorMaxRetryReached := by
        simp only [FixedDurationClosure.call, Prod.mk.injEq] at h₂
        obtain ⟨⟨_, hv⟩, _⟩ := h₂
        split at hv
        · exact (Option.some.inj hv).symm
        · exact absurd hv (by simp)
      subst hv
      have hl : run.trace.getLast? = some (Event.policy d (some GoError.ErrorMaxRetryReached)) := by
        rw [h₃]; simp
      refine ⟨⟨fun h => ?_, fun h => ?_⟩, ⟨fun _ => ⟨e, d, _, pre, h₃.symm⟩, fun _ => h₁⟩,
        ⟨fun h => ?_, ?_⟩⟩
      · rw [h₁] at h; exact absurd h (by simp)
      · rw [hl] at h; exact absurd h (by simp)
      · rw [h₁] at h; exact absurd h (by simp)
      · rintro ⟨e', d', w, hs⟩
        rw [hlast₃ e' d' w hs] at hl
        exact absurd hl (by simp)
    · have hw : w = GoError.ErrorTaskCancelled := by
        rcases htok k with hk | hk
        · rw [hk] at h₃; exact absurd h₃ (by simp [Wait])
        · rw [hk] at h₃; exact (Option.some.inj h₃).symm
      subst hw
      have hl : run.trace.getLast? = some (Event.wait d (some GoError.ErrorTaskCancelled)) := by
        rw [h₄]; simp
      refine ⟨⟨fun h => ?_, fun h => ?_⟩, ⟨fun h => ?_, ?_⟩,
        ⟨fun _ => ⟨e, d, _, pre, h₄.symm⟩, fun _ => h₁⟩⟩
      · rw [h₁] at h; exact absurd h (by simp)
      · rw [hl] at h; exact absurd h (by simp)
      · rw [h₁] at h; exact absurd h (by simp)
      · rintro ⟨e', d', v, hs⟩
        rw [hlast₂ e' d' v hs] at hl
        exact absurd hl (by simp)

/-- C7, an instance: the run of the scenario `FixedDuration(3600, 5)` whose
first wait is interrupted by `Cancel`. -/
theorem C7_three_outcomes_witness :
    ((∀ i, cancelledAt 0 i = SelectCase.timer ∨ cancelledAt 0 i = SelectCase.cancelled)
        ∧ RetryOperation 1 (fun _ => some (GoError.other 0)) FixedDurationClosure.call
            (FixedDuration 3600 5) (cancelledAt 0)
          = some { result := some GoError.ErrorTaskCancelled,
                   policyState := { retryPeriod := 3600, maxRetry := 5, count := 1 },
                   trace := [Event.operation (some (GoError.other 0)), Event.policy 3600 none,
                             Event.wait 3600 (some GoError.ErrorTaskCancelled)] })
      ∧ (some GoError.ErrorTaskCancelled = none
          ∨ some GoError.ErrorTaskCancelled = some GoError.ErrorMaxRetryReached
          ∨ some GoError.ErrorTaskCancelled = some GoError.ErrorTaskCancelled) :=
  have htok : ∀ i, cancelledAt 0 i = SelectCase.timer
      ∨ cancelledAt 0 i = SelectCase.cancelled := by
    intro i
    unfold cancelledAt
    split
    · exact Or.inr rfl
    · exact Or.inl rfl
  ⟨⟨htok, rfl⟩,
    (C7_three_outcomes (fun _ => some (GoError.other 0)) (FixedDuration 3600 5) (cancelledAt 0) 1
      { result := some GoError.ErrorTaskCancelled,
        policyState := { retryPeriod := 3600, maxRetry := 5, count := 1 },
        trace := [Event.operation (some (GoError.other 0)), Event.policy 3600 none,
                  Event.wait 3600 (some GoError.ErrorTaskCancelled)] }
      htok rfl).1⟩

/-! ## Wait and the token -/

/-- C8: for every duration, `Wait` returns `nil` when its select takes the
timer case and `ErrorTaskCancelled` when it receives the value sent by
`Cancel` (the value a `Cancel` parks on the token); when the select can only
take one of these two cases, `Wait` returns nothing else. -/
theorem C8_wait_outcomes (duration : Duration) :
    Wait duration SelectCase.timer = none
      ∧ (NewCancellationToken.Cancel).2.senders.map SelectCase.token = [SelectCase.cancelled]
      ∧ Wait duration SelectCase.cancelled = some GoError.ErrorTaskCancelled
      ∧ ∀ taken, taken = SelectCase.timer ∨ taken = SelectCase.cancelled →
          Wait duration taken = none ∨ Wait duration taken = some GoError.ErrorTaskCancelled := by
  refine ⟨rfl, rfl, rfl, ?_⟩
  rintro taken (rfl | rfl)
  · exact Or.inl rfl
  · exact Or.inr rfl

/-- C8, an instance: a wait of one hour. -/
theorem C8_wait_outcomes_witness :
    Wait 3600000000000 SelectCase.timer = none
      ∧ Wait 3600000000000 SelectCase.cancelled = some GoError.ErrorTaskCancelled :=
  ⟨(C8_wait_outcomes 3600000000000).1, (C8_wait_outcomes 3600000000000).2.2.1⟩

/-! ## Reusing a policy closure -/

/-- The state of a `FixedDuration` closure after `j` calls, while the counter
has not wrapped around. -/
theorem FixedDurationClosure.stateAfter_fresh (p : Duration) (n : Int) (j : Nat)
    (hj : (j : Int) < 9223372036854775808) :
    stateAfter FixedDurationClosure.call j (FixedDuration p n)
      = { retryPeriod := p, maxRetry := n, count := j } := by
  cases j with
  | zero => rfl
  | succ j =>
    have h : wrapInt (0 + ((j : Int) + 1)) = (j : Int) + 1 := by
      push_cast at hj
      unfold wrapInt
      omega
    rw [FixedDurationClosure.stateAfter_succ]
    simp only [FixedDuration, Nat.cast_succ, h]

/-- C9, as amended: reusing a `FixedDuration(p, n)` closure carries the counter
over. For every maxRetry `n` (a Go `int`, so `n < 2^63`) and every number `j`
of earlier calls with `j + 1 < 2^63` (the counter does not wrap around), a
session of `RetryOperation` on the closure already called `j` times, with an
operation that fails on every attempt and a token that is never triggered,
returns `ErrorMaxRetryReached` (given fuel for `max(1, n - j)` iterations)
after exactly `max(1, n - j)` invocations of the operation. -/
theorem C9_reused_policy (p : Duration) (n : Int) (j : Nat)
    (operation : Nat → Option GoError) (token : Nat → SelectCase) (fuel : Nat)
    (hint : n < 9223372036854775808) (hj : (j : Int) + 1 < 9223372036854775808)
    (hop : alwaysFails operation) (htok : neverTriggered token)
    (hfuel : (max 1 (n - j)).toNat ≤ fuel) :
    ∃ run, RetryOperation fuel operation FixedDurationClosure.call
        (stateAfter FixedDurationClosure.call j (FixedDuration p n)) token = some run
      ∧ run.result = some GoError.ErrorMaxRetryReached
      ∧ (attempts run.trace : Int) = max 1 (n - j) := by
  rw [FixedDurationClosure.stateAfter_fresh p n j (by omega)]
  obtain ⟨m, hm⟩ : ∃ m : Nat, (m : Int) + 1 = max 1 (n - j) :=
    ⟨(max 1 (n - j)).toNat - 1, by omega⟩
  obtain ⟨run, hrun, hres, hatt, _⟩ :=
    fixedDuration_exhausts { retryPeriod := p, maxRetry := n, count := j } m operation token
      fuel 0
      (fun k hk => by
        show wrapInt ((j : Int) + ((k : Int) + 1)) < n
        unfold wrapInt
        omega)
      (by
        show wrapInt ((j : Int) + ((m : Int) + 1)) ≥ n
        unfold wrapInt
        omega)
      (fun k _ => hop _)
      (fun k _ d => by rw [htok]; rfl)
      (by omega)
  refine ⟨run, hrun, hres, ?_⟩
  rw [hatt, ← hm]
  push_cast
  rfl

/-- C9, an instance: a `FixedDuration(10, 5)` closure already called twice
allows three attempts. -/
theorem C9_reused_policy_witness :
    ((5 : Int) < 9223372036854775808 ∧ ((2 : Nat) : Int) + 1 < 9223372036854775808
        ∧ alwaysFails (fun _ => some (GoError.other 0))
        ∧ neverTriggered (fun _ => SelectCase.timer)
        ∧ (max 1 ((5 : Int) - ((2 : Nat) : Int))).toNat ≤ 3)
      ∧ ∃ run, RetryOperation 3 (fun _ => some (GoError.other 0)) FixedDurationClosure.call
            (stateAfter FixedDurationClosure.call 2 (FixedDuration 10 5))
            (fun _ => SelectCase.timer) = some run
          ∧ run.result = some GoError.ErrorMaxRetryReached
          ∧ (attempts run.trace : Int) = max 1 ((5 : Int) - ((2 : Nat) : Int)) :=
  ⟨⟨by decide, by decide, fun _ => by simp, fun _ => rfl, by decide⟩,
    C9_reused_policy 10 5 2 (fun _ => some (GoError.other 0)) (fun _ => SelectCase.timer) 3
      (by decide) (by decide) (fun _ => by simp) (fun _ => rfl) (by decide)⟩

/-- C9 as stated fails: a `FixedDuration(0, 1)` closure already called
`2^63 - 1` times has its counter at the largest `int`; the claim gives
`max(1, 1 - (2^63 - 1)) = 1` invocation, but the next policy call wraps the
counter around to `-2^63`, reports no violation, and the session has not
returned after three invocations of the operation. -/
theorem C9_counterexample :
    max 1 ((1 : Int) - ((9223372036854775807 : Nat) : Int)) = 1
      ∧ (stateAfter FixedDurationClosure.call 9223372036854775807 (FixedDuration 0 1)).count
          = 9223372036854775807
      ∧ (FixedDurationClosure.call
            (stateAfter FixedDurationClosure.call 9223372036854775807 (FixedDuration 0 1))).1
          = (0, none)
      ∧ (RetryOperation 3 (fun _ => some (GoError.other 0)) FixedDurationClosure.call
            (stateAfter FixedDurationClosure.call 9223372036854775807 (FixedDuration 0 1))
            (fun _ => SelectCase.timer)).isNone = true := by
  have hs : stateAfter FixedDurationClosure.call 9223372036854775807 (FixedDuration 0 1)
      = { retryPeriod := 0, maxRetry := 1, count := 9223372036854775807 } :=
    FixedDurationClosure.stateAfter_fresh 0 1 9223372036854775807 (by decide)
  rw [hs]
  exact ⟨by decide, rfl, by decide, by decide⟩

/-! ## Cancel -/

/-- C10, as amended: `Cancel` on a token made by `NewCancellationToken` returns
to its caller exactly when a goroutine is parked in a receive on the token;
when nobody is receiving (before any wait has begun, or once `RetryOperation`
has returned) the caller is parked in the send. -/
theorem C10_cancel_returns_iff_receiver (receivers : Nat) (senders : List (Option GoError)) :
    (({ NewCancellationToken with receivers := receivers, senders := senders }
        : CancellationToken).Cancel.1 = SendStatus.returned ↔ 0 < receivers)
      ∧ NewCancellationToken.parkReceiver.Cancel = (SendStatus.returned, NewCancellationToken)
      := by
  refine ⟨?_, rfl⟩
  by_cases h : 0 < receivers
  · simp [CancellationToken.Cancel, CancellationToken.send, NewCancellationToken, h]
  · simp [CancellationToken.Cancel, CancellationToken.send, NewCancellationToken, h]

/-- C10 as stated fails: `Cancel` on a token just made by
`NewCancellationToken`, on which nobody is waiting, does not return: the caller
is parked in the send with its value. -/
theorem C10_counterexample :
    NewCancellationToken.receivers = 0
      ∧ NewCancellationToken.Cancel
          = (SendStatus.parked,
             { NewCancellationToken with senders := [some GoError.ErrorTaskCancelled] }) := by
  decide

/-! ## Cancel before the first wait -/

/-- C11, as amended: if `Cancel` is invoked on a fresh token before
`RetryOperation` has begun any wait, its caller is parked in the send and the
first wait that `RetryOperation` performs does not block, since its select
finds the receive ready. When the timer of that wait has not delivered yet at
that moment, the select receives the pending value, `Wait` returns
`ErrorTaskCancelled` without waiting for the delay and releases the caller of
`Cancel`, and `RetryOperation` returns `ErrorTaskCancelled` after exactly one
invocation of the operation when that first attempt fails and the policy
allows a retry. -/
theorem C11_pending_cancel {π : Type} (operation : Nat → Option GoError)
    (retryPolicy : RetryPolicy π) (s : π) (token : Nat → SelectCase) (fuel : Nat)
    (pickTimer : Bool)
    (hfail : operation 0 ≠ none) (hpol : (retryPolicy s).1.2 = none)
    (hfirst : (NewCancellationToken.Cancel.2.select false pickTimer).map Prod.fst
      = some (token 0))
    (hfuel : 1 ≤ fuel) :
    NewCancellationToken.Cancel.1 = SendStatus.parked
      ∧ (∀ timerReady pick,
          (NewCancellationToken.Cancel.2.select timerReady pick).isSome = true)
      ∧ NewCancellationToken.Cancel.2.select false pickTimer
          = some (SelectCase.cancelled, NewCancellationToken)
      ∧ ∃ run, RetryOperation fuel operation retryPolicy s token = some run
          ∧ run.result = some GoError.ErrorTaskCancelled
          ∧ attempts run.trace = 1 := by
  have hsel : NewCancellationToken.Cancel.2.select false pickTimer
      = some (SelectCase.cancelled, NewCancellationToken) := rfl
  have htok : token 0 = SelectCase.cancelled := by
    rw [hsel] at hfirst
    exact (Option.some.inj hfirst).symm
  refine ⟨rfl, ?_, hsel, ?_⟩
  · intro timerReady pick
    cases timerReady <;> cases pick <;> rfl
  · obtain ⟨run, hrun, hres, _, htr⟩ :=
      retryLoop_interrupted operation retryPolicy token 0 fuel 0 s GoError.ErrorTaskCancelled
        (fun k hk => by
          obtain rfl : k = 0 := by omega
          exact hfail)
        (fun k hk => by
          obtain rfl : k = 0 := by omega
          exact hpol)
        (fun k hk => absurd hk (Nat.not_lt_zero k))
        (fun d => by rw [Nat.add_zero, htok]; rfl)
        hfuel
    refine ⟨run, hrun, hres, ?_⟩
    rw [htr]
    simp [failedRounds, attempts]

/-- C11, an instance: `FixedDuration(3600, 5)`, an operation that always
fails, and a `Cancel` pending on the token when the first wait begins. -/
theorem C11_pending_cancel_witness :
    ((fun _ => some (GoError.other 0) : Nat → Option GoError) 0 ≠ none
        ∧ (FixedDurationClosure.call (FixedDuration 3600 5)).1.2 = none
        ∧ (NewCancellationToken.Cancel.2.select false false).map Prod.fst
            = some (cancelledAt 0 0)
        ∧ 1 ≤ 1)
      ∧ NewCancellationToken.Cancel.1 = SendStatus.parked
      ∧ (∀ timerReady pick,
          (NewCancellationToken.Cancel.2.select timerReady pick).isSome = true)
      ∧ NewCancellationToken.Cancel.2.select false false
          = some (SelectCase.cancelled, NewCancellationToken)
      ∧ ∃ run, RetryOperation 1 (fun _ => some (GoError.other 0)) FixedDurationClosure.call
            (FixedDuration 3600 5) (cancelledAt 0) = some run
          ∧ run.result = some GoError.ErrorTaskCancelled
          ∧ attempts run.trace = 1 :=
  ⟨⟨by simp, by decide, rfl, by decide⟩,
    C11_pending_cancel (fun _ => some (GoError.other 0)) FixedDurationClosure.call
      (FixedDuration 3600 5) (cancelledAt 0) 1 false (by simp) (by decide) rfl (by decide)⟩

/-- C11 as stated fails: with a `Cancel` pending on the token and a delay of
zero, the select of the first wait can find the timer delivered as well and
take the timer case; the pending `Cancel` stays parked, `Wait` returns `nil`,
and when every wait goes that way `RetryOperation` on `FixedDuration(0, 2)`
with an operation that always fails makes a second attempt and returns
`ErrorMaxRetryReached`, not `ErrorTaskCancelled` after one attempt. -/
theorem C11_counterexample :
    NewCancellationToken.Cancel.2.select true true
        = some (SelectCase.timer, NewCancellationToken.Cancel.2)
      ∧ Wait 0 SelectCase.timer = none
      ∧ (RetryOperation 2 (fun _ => some (GoError.other 0)) FixedDurationClosure.call
            (FixedDuration 0 2) (fun _ => SelectCase.timer)).map
          (fun run => (run.result, attempts run.trace))
          = some (some GoError.ErrorMaxRetryReached, 2) := by
  exact ⟨rfl, rfl, by decide⟩

/-! ## The shape of a run -/

section normalForm
variable {π : Type} (operation : Nat → Option GoError) (retryPolicy : RetryPolicy π)
  (token : Nat → SelectCase)

/-- The shape of every run that returns: `m` rounds in which the operation
fails, the policy allows a retry and the wait returns `nil`, followed by a
successful attempt, or by a failed attempt and a policy violation, or by a
failed attempt, an allowed retry and a wait that returns an error. -/
theorem retryLoop_normalForm (fuel i : Nat) (s : π) (run : Run π)
    (h : retryLoop operation retryPolicy token fuel i s = some run) :
    ∃ m, m < fuel
      ∧ (∀ k, k < m → operation (i + k) ≠ none
          ∧ (retryPolicy (stateAfter retryPolicy k s)).1.2 = none
          ∧ Wait (retryPolicy (stateAfter retryPolicy k s)).1.1 (token (i + k)) = none)
      ∧ ((operation (i + m) = none
            ∧ run = { result := none, policyState := stateAfter retryPolicy m s,
                      trace := failedRounds operation retryPolicy m i s
                        ++ [Event.operation none] })
          ∨ (∃ e v, operation (i + m) = some e
              ∧ (retryPolicy (stateAfter retryPolicy m s)).1.2 = some v
              ∧ run = { result := some v, policyState := stateAfter retryPolicy (m + 1) s,
                        trace := failedRounds operation retryPolicy m i s
                          ++ [Event.operation (some e),
                              Event.policy (retryPolicy (stateAfter retryPolicy m s)).1.1
                                (some v)] })
          ∨ (∃ e w, operation (i + m) = some e
              ∧ (retryPolicy (stateAfter retryPolicy m s)).1.2 = none
              ∧ Wait (retryPolicy (stateAfter retryPolicy m s)).1.1 (token (i + m)) = some w
              ∧ run = { result := some w, policyState := stateAfter retryPolicy (m + 1) s,
                        trace := failedRounds operation retryPolicy m i s
                          ++ [Event.operation (some e),
                              Event.policy (retryPolicy (stateAfter retryPolicy m s)).1.1 none,
                              Event.wait (retryPolicy (stateAfter retryPolicy m s)).1.1
                                (some w)] })) := by
  induction fuel generalizing i s run with
  | zero => simp [retryLoop] at h
  | succ fuel ih =>
    rcases ho : operation i with _ | err
    · simp only [retryLoop, ho, Option.some.injEq] at h
      subst h
      exact ⟨0, Nat.succ_pos _, fun k hk => absurd hk (Nat.not_lt_zero k), Or.inl ⟨ho, rfl⟩⟩
    · rcases hs : retryPolicy s with ⟨⟨d, _ | v⟩, s'⟩
      · have hd : (retryPolicy s).1.1 = d := by rw [hs]
        have hv : (retryPolicy s).1.2 = none := by rw [hs]
        have hs' : (retryPolicy s).2 = s' := by rw [hs]
        rcases hw : Wait d (token i) with _ | werr
        · simp only [retryLoop, ho, hs, hw, Option.map_eq_some'] at h
          obtain ⟨r, hr, rfl⟩ := h
          subst hd hs'
          obtain ⟨m, hm, hk, hend⟩ := ih (i + 1) _ r hr
          have hi : i + 1 + m = i + (m + 1) := by omega
          refine ⟨m + 1, Nat.succ_lt_succ hm, ?_, ?_⟩
          · intro k hk'
            cases k with
            | zero =>
              refine ⟨by rw [Nat.add_zero, ho]; simp, hv, ?_⟩
              rw [Nat.add_zero]; exact hw
            | succ k =>
              have := hk k (Nat.lt_of_succ_lt_succ hk')
              rw [show i + 1 + k = i + (k + 1) by omega] at this
              exact this
          · rw [hi] at hend
            rcases hend with ⟨h₁, rfl⟩ | ⟨e, v, h₁, h₂, rfl⟩ | ⟨e, w, h₁, h₂, h₃, rfl⟩
            · refine Or.inl ⟨h₁, ?_⟩
              simp [Run.after, failedRounds, stateAfter, ho]
            · refine Or.inr (Or.inl ⟨e, v, h₁, h₂, ?_⟩)
              simp [Run.after, failedRounds, stateAfter, ho]
            · refine Or.inr (Or.inr ⟨e, w, h₁, h₂, h₃, ?_⟩)
              simp [Run.after, failedRounds, stateAfter, ho]
        · simp only [retryLoop, ho, hs, hw, Option.some.injEq] at h
          subst h
          subst hd hs'
          exact ⟨0, Nat.succ_pos _, fun k hk => absurd hk (Nat.not_lt_zero k),
            Or.inr (Or.inr ⟨err, werr, ho, hv, hw, rfl⟩)⟩
      · have hd : (retryPolicy s).1.1 = d := by rw [hs]
        have hv : (retryPolicy s).1.2 = some v := by rw [hs]
        have hs' : (retryPolicy s).2 = s' := by rw [hs]
        simp only [retryLoop, ho, hs, Option.some.injEq] at h
        subst h
        subst hd hs'
        exact ⟨0, Nat.succ_pos _, fun k hk => absurd hk (Nat.not_lt_zero k),
          Or.inr (Or.inl ⟨err, v, ho, hv, rfl⟩)⟩

end normalForm

/-! ## The order of calls -/

theorem Phase.after_append (ph : Phase) (a b : List Event) :
    ph.after (a ++ b) = (ph.after a).bind (fun ph' => ph'.after b) := by
  induction a generalizing ph with
  | nil => rfl
  | cons e a ih =>
    simp only [List.cons_append, Phase.after]
    cases ph.next e with
    | none => rfl
    | some ph' => exact ih ph'

theorem Phase.after_returned (tr : List Event) (ph : Phase)
    (h : Phase.returned.after tr = some ph) : tr = [] := by
  cases tr with
  | nil => rfl
  | cons e tr => cases e <;> simp [Phase.after, Phase.next] at h

theorem Phase.after_failedRounds {π : Type} (operation : Nat → Option GoError)
    (retryPolicy : RetryPolicy π) (m i : Nat) (s : π)
    (h : ∀ k, k < m → operation (i + k) ≠ none) :
    Phase.attempt.after (failedRounds operation retryPolicy m i s) = some Phase.attempt := by
  induction m generalizing i s with
  | zero => rfl
  | succ m ih =>
    have h0 := h 0 (Nat.succ_pos m)
    rw [Nat.add_zero] at h0
    rcases ho : operation i with _ | err
    · exact absurd ho h0
    · have e : failedRounds operation retryPolicy (m + 1) i s
          = Event.operation (operation i) :: Event.policy (retryPolicy s).1.1 none
            :: Event.wait (retryPolicy s).1.1 none
            :: failedRounds operation retryPolicy m (i + 1) (retryPolicy s).2 := rfl
      rw [e, ho]
      simp only [Phase.after, Phase.next]
      apply ih
      intro k hk
      have := h (k + 1) (Nat.succ_lt_succ hk)
      rwa [show i + 1 + k = i + (k + 1) by omega]

/-- The counts of calls along an allowed sequence of calls. -/
theorem Phase.after_counts (tr : List Event) (ph₀ ph : Phase) (h : ph₀.after tr = some ph) :
    failedAttempts tr + (if ph₀ = Phase.consult then 1 else 0)
        = policyCalls tr + (if ph = Phase.consult then 1 else 0)
      ∧ retriesAllowed tr + (if ph₀ = Phase.pause then 1 else 0)
        = (waits tr).length + (if ph = Phase.pause then 1 else 0) := by
  induction tr generalizing ph₀ with
  | nil =>
    simp only [Phase.after, Option.some.injEq] at h
    subst h
    simp [failedAttempts, policyCalls, retriesAllowed, waits]
  | cons e tr ih =>
    rcases hn : ph₀.next e with _ | ph'
    · simp [Phase.after, hn] at h
    · simp only [Phase.after, hn] at h
      have := ih ph' h
      rcases ph₀ <;> rcases e with (_ | _) | ⟨_, (_ | _)⟩ | ⟨_, (_ | _)⟩ <;>
        simp [Phase.next] at hn <;> subst hn <;>
        simp [failedAttempts, policyCalls, retriesAllowed, waits] at this ⊢ <;> omega

theorem Phase.after_concat (ph₀ ph : Phase) (tr : List Event) (e : Event)
    (h : ph₀.after (tr ++ [e]) = some ph) :
    ∃ ph₁, ph₀.after tr = some ph₁ ∧ ph₁.next e = some ph := by
  rw [Phase.after_append] at h
  rcases h₁ : ph₀.after tr with _ | ph₁
  · simp [h₁] at h
  · refine ⟨ph₁, rfl, ?_⟩
    simp only [h₁, Option.some_bind, Phase.after] at h
    rcases h₂ : ph₁.next e with _ | ph₂
    · simp [h₂] at h
    · simpa [h₂] using h

theorem Phase.next_eq_attempt (ph : Phase) (e : Event) (h : ph.next e = some Phase.attempt) :
    ph = Phase.pause ∧ ∃ d, e = Event.wait d none := by
  rcases ph <;> rcases e with (_ | _) | ⟨_, (_ | _)⟩ | ⟨d, (_ | _)⟩ <;>
    simp [Phase.next] at h ⊢

theorem Phase.next_eq_pause (ph : Phase) (e : Event) (h : ph.next e = some Phase.pause) :
    ph = Phase.consult ∧ ∃ d, e = Event.policy d none := by
  rcases ph <;> rcases e with (_ | _) | ⟨d, (_ | _)⟩ | ⟨_, (_ | _)⟩ <;>
    simp [Phase.next] at h ⊢

theorem Phase.next_eq_consult (ph : Phase) (e : Event) (h : ph.next e = some Phase.consult) :
    ph = Phase.attempt ∧ ∃ err, e = Event.operation (some err) := by
  rcases ph <;> rcases e with (_ | _) | ⟨_, (_ | _)⟩ | ⟨_, (_ | _)⟩ <;>
    simp [Phase.next] at h ⊢

/-- The loop is about to invoke the operation only at the start of the run or
right after a failed attempt, a policy call without violation and a wait that
returned `nil`. -/
theorem Phase.after_eq_attempt (tr : List Event)
    (h : Phase.attempt.after tr = some Phase.attempt) :
    tr = [] ∨ ∃ pre e d d', tr = pre
      ++ [Event.operation (some e), Event.policy d none, Event.wait d' none] := by
  rcases List.eq_nil_or_concat tr with rfl | ⟨tr₁, e₃, rfl⟩
  · exact Or.inl rfl
  · right
    rw [List.concat_eq_append] at h ⊢
    obtain ⟨ph₁, h₁, hn₁⟩ := Phase.after_concat _ _ _ _ h
    obtain ⟨rfl, d', rfl⟩ := Phase.next_eq_attempt _ _ hn₁
    rcases List.eq_nil_or_concat tr₁ with rfl | ⟨tr₂, e₂, rfl⟩
    · simp [Phase.after] at h₁
    · rw [List.concat_eq_append] at h₁ ⊢
      obtain ⟨ph₂, h₂, hn₂⟩ := Phase.after_concat _ _ _ _ h₁
      obtain ⟨rfl, d, rfl⟩ := Phase.next_eq_pause _ _ hn₂
      rcases List.eq_nil_or_concat tr₂ with rfl | ⟨tr₃, e₁, rfl⟩
      · simp [Phase.after] at h₂
      · rw [List.concat_eq_append] at h₂ ⊢
        obtain ⟨ph₃, _, hn₃⟩ := Phase.after_concat _ _ _ _ h₂
        obtain ⟨rfl, e, rfl⟩ := Phase.next_eq_consult _ _ hn₃
        exact ⟨tr₃, e, d, d', by simp⟩

/-- C12: in every run of `RetryOperation` that returns, for every operation,
policy and select outcomes, the calls come strictly in the order operation,
policy, wait, operation, ...: the whole trace is a run of the phase automaton
from `attempt` to `returned`; the policy is called once per failed attempt
and a wait is made once per policy call without violation; at every point of
the trace the policy calls equal the failed attempts, less the one whose
decision is pending, and the waits equal the policy calls without violation,
less the one whose wait is pending; nothing follows a successful attempt; and
every attempt other than the first comes right after a failed attempt, a
policy call without violation and a wait that returned `nil`. -/
theorem C12_strict_interleaving {π : Type} (operation : Nat → Option GoError)
    (retryPolicy : RetryPolicy π) (s : π) (token : Nat → SelectCase) (fuel : Nat)
    (run : Run π)
    (hrun : RetryOperation fuel operation retryPolicy s token = some run) :
    Phase.attempt.after run.trace = some Phase.returned
      ∧ policyCalls run.trace = failedAttempts run.trace
      ∧ (waits run.trace).length = retriesAllowed run.trace
      ∧ (∀ pre suf, run.trace = pre ++ suf →
          ∃ ph, Phase.attempt.after pre = some ph
            ∧ failedAttempts pre = policyCalls pre + (if ph = Phase.consult then 1 else 0)
            ∧ retriesAllowed pre = (waits pre).length + (if ph = Phase.pause then 1 else 0))
      ∧ (∀ pre suf, run.trace = pre ++ Event.operation none :: suf → suf = [])
      ∧ (∀ pre e suf, run.trace = pre ++ Event.operation e :: suf →
          pre = [] ∨ ∃ pre' e' d d', pre = pre'
            ++ [Event.operation (some e'), Event.policy d none, Event.wait d' none]) := by
  have hall : Phase.attempt.after run.trace = some Phase.returned := by
    obtain ⟨m, _, hk, hend⟩ := retryLoop_normalForm operation retryPolicy token fuel 0 s run hrun
    have hr := Phase.after_failedRounds operation retryPolicy m 0 s (fun k hk' => (hk k hk').1)
    rcases hend with ⟨_, rfl⟩ | ⟨e, v, _, _, rfl⟩ | ⟨e, w, _, _, _, rfl⟩ <;>
      simp [Phase.after_append, hr, Phase.after, Phase.next]
  have hpre : ∀ pre suf, run.trace = pre ++ suf →
      ∃ ph, Phase.attempt.after pre = some ph ∧ ph.after suf = some Phase.returned := by
    intro pre suf hsplit
    have h := hall
    rw [hsplit, Phase.after_append] at h
    rcases h₁ : Phase.attempt.after pre with _ | ph
    · simp [h₁] at h
    · exact ⟨ph, rfl, by simpa [h₁] using h⟩
  have hc := Phase.after_counts run.trace Phase.attempt Phase.returned hall
  refine ⟨hall, ?_, ?_, ?_, ?_, ?_⟩
  · simpa using hc.1.symm
  · simpa using hc.2.symm
  · intro pre suf hsplit
    obtain ⟨ph, h₁, _⟩ := hpre pre suf hsplit
    have hc' := Phase.after_counts pre Phase.attempt ph h₁
    exact ⟨ph, h₁, by simpa using hc'.1, by simpa using hc'.2⟩
  · intro pre suf hsplit
    obtain ⟨ph, _, h₂⟩ := hpre pre _ hsplit
    rcases ph <;> simp [Phase.after, Phase.next] at h₂
    exact Phase.after_returned suf _ h₂
  · intro pre e suf hsplit
    obtain ⟨ph, h₁, h₂⟩ := hpre pre _ hsplit
    apply Phase.after_eq_attempt
    rcases ph <;> rcases e with _ | _ <;> simp [Phase.after, Phase.next] at h₂
    · exact h₁
    · exact h₁

/-- C12, an instance: the run of `FixedDuration(10, 2)` with an operation that
always fails. -/
theorem C12_strict_interleaving_witness :
    RetryOperation 2 (fun _ => some (GoError.other 0)) FixedDurationClosure.call
        (FixedDuration 10 2) (fun _ => SelectCase.timer)
      = some { result := some GoError.ErrorMaxRetryReached,
               policyState := { retryPeriod := 10, maxRetry := 2, count := 2 },
               trace := [Event.operation (some (GoError.other 0)), Event.policy 10 none,
                         Event.wait 10 none, Event.operation (some (GoError.other 0)),
                         Event.policy 10 (some GoError.ErrorMaxRetryReached)] }
      ∧ Phase.attempt.after
          [Event.operation (some (GoError.other 0)), Event.policy 10 none,
            Event.wait 10 none, Event.operation (some (GoError.other 0)),
            Event.policy 10 (some GoError.ErrorMaxRetryReached)] = some Phase.returned :=
  ⟨rfl,
    (C12_strict_interleaving (fun _ => some (GoError.other 0)) FixedDurationClosure.call
      (FixedDuration 10 2) (fun _ => SelectCase.timer) 2
      { result := some GoError.ErrorMaxRetryReached,
        policyState := { retryPeriod := 10, maxRetry := 2, count := 2 },
        trace := [Event.operation (some (GoError.other 0)), Event.policy 10 none,
                  Event.wait 10 none, Event.operation (some (GoError.other 0)),
                  Event.policy 10 (some GoError.ErrorMaxRetryReached)] }
      rfl).1⟩

/-! ## Delays -/

/-- C13: for every policy closure, in every run of `RetryOperation` that
returns, the duration passed to the `i`-th `Wait` is the delay returned by the
`i`-th policy call; and when the run ends on a policy violation, the policy
has been called once more than `Wait`: the delay returned with the violation
is passed to no wait. -/
theorem C13_wait_durations {π : Type} (operation : Nat → Option GoError)
    (retryPolicy : RetryPolicy π) (s : π) (token : Nat → SelectCase) (fuel : Nat)
    (run : Run π)
    (hrun : RetryOperation fuel operation retryPolicy s token = some run) :
    (∀ i, i < (waits run.trace).length →
        (waits run.trace)[i]? = some (kthCall retryPolicy s (i + 1)).1)
      ∧ (∀ d v, run.trace.getLast? = some (Event.policy d (some v)) →
          policyCalls run.trace = (waits run.trace).length + 1
            ∧ (kthCall retryPolicy s (policyCalls run.trace)) = (d, some v)) := by
  obtain ⟨m, _, _, hend⟩ := retryLoop_normalForm operation retryPolicy token fuel 0 s run hrun
  have hw := waits_failedRounds operation retryPolicy m 0 s
  rcases hend with ⟨_, rfl⟩ | ⟨e, v, _, hv, rfl⟩ | ⟨e, w, _, _, _, rfl⟩
  · constructor
    · intro i hi
      simp only [waits_append, hw, waits, List.append_nil, List.length_map,
        List.length_range] at hi ⊢
      simp [hi, kthCall]
    · intro d v h
      simp at h
  · constructor
    · intro i hi
      simp only [waits_append, hw, waits, List.append_nil, List.length_map,
        List.length_range] at hi ⊢
      simp [hi, kthCall]
    · intro d v' h
      simp at h
      obtain ⟨rfl, rfl⟩ := h
      simp only [policyCalls_append, policyCalls_failedRounds, policyCalls, waits_append, hw,
        waits, List.append_nil, List.length_map, List.length_range, kthCall,
        Nat.add_sub_cancel, true_and]
      rw [← hv]
  · constructor
    · intro i hi
      simp only [waits_append, hw, waits, List.length_append, List.length_map,
        List.length_range, List.length_singleton] at hi ⊢
      rcases Nat.lt_or_ge i m with h | h
      · simp [h, kthCall, List.getElem?_append_left]
      · have : i = m := by omega
        subst this
        simp [kthCall, List.getElem?_append_right]
    · intro d v h
      simp at h

/-- C13, an instance: a policy with the delays 1, 2, 3 and a violation on its
third call; the two waits last 1 and 2, and the delay 3 is passed to no wait. -/
theorem C13_wait_durations_witness :
    RetryOperation 3 (fun _ => some (GoError.other 0)) growingDelays 0
        (fun _ => SelectCase.timer)
      = some { result := some (GoError.other 9), policyState := 3,
               trace := [Event.operation (some (GoError.other 0)), Event.policy 1 none,
                         Event.wait 1 none, Event.operation (some (GoError.other 0)),
                         Event.policy 2 none, Event.wait 2 none,
                         Event.operation (some (GoError.other 0)),
                         Event.policy 3 (some (GoError.other 9))] }
      ∧ (∀ i, i < 2 → ([1, 2] : List Duration)[i]? = some (kthCall growingDelays 0 (i + 1)).1) :=
  ⟨rfl,
    (C13_wait_durations (fun _ => some (GoError.other 0)) growingDelays 0
      (fun _ => SelectCase.timer) 3
      { result := some (GoError.other 9), policyState := 3,
        trace := [Event.operation (some (GoError.other 0)), Event.policy 1 none,
                  Event.wait 1 none, Event.operation (some (GoError.other 0)),
                  Event.policy 2 none, Event.wait 2 none,
                  Event.operation (some (GoError.other 0)),
                  Event.policy 3 (some (GoError.other 9))] }
      rfl).1⟩

/-! ## The token and the loop -/

/-- The loop sees the token only through what `Wait` returns. -/
theorem retryLoop_congr_token {π : Type} (operation : Nat → Option GoError)
    (retryPolicy : RetryPolicy π) (token token' : Nat → SelectCase)
    (h : ∀ i d, Wait d (token i) = Wait d (token' i)) (fuel i : Nat) (s : π) :
    retryLoop operation retryPolicy token fuel i s
      = retryLoop operation retryPolicy token' fuel i s := by
  induction fuel generalizing i s with
  | zero => rfl
  | succ fuel ih =>
    rcases ho : operation i with _ | err
    · simp [retryLoop, ho]
    · rcases hs : retryPolicy s with ⟨⟨d, _ | v⟩, s'⟩
      · have hw := h i d
        rcases hw' : Wait d (token' i) with _ | werr
        · rw [hw'] at hw
          simp only [retryLoop, ho, hs, hw, hw', ih]
        · rw [hw'] at hw
          simp only [retryLoop, ho, hs, hw, hw']
      · simp [retryLoop, ho, hs]

/-- C14: the token is observed only inside a wait. For two runs of
`RetryOperation` that differ only in the token: if the operation succeeds on
its first attempt both return `nil`; if the first attempt fails and the policy
reports a violation both return that violation; and whenever one run returns
without having performed a wait, the other run is the same run. -/
theorem C14_token_only_in_wait {π : Type} (operation : Nat → Option GoError)
    (retryPolicy : RetryPolicy π) (s : π) (token token' : Nat → SelectCase) (fuel : Nat)
    (hfuel : 1 ≤ fuel) :
    (operation 0 = none →
        (RetryOperation fuel operation retryPolicy s token).map Run.result = some none
          ∧ (RetryOperation fuel operation retryPolicy s token').map Run.result = some none)
      ∧ (∀ v, operation 0 ≠ none → (retryPolicy s).1.2 = some v →
          (RetryOperation fuel operation retryPolicy s token).map Run.result = some (some v)
            ∧ (RetryOperation fuel operation retryPolicy s token').map Run.result
                = some (some v))
      ∧ (∀ run, RetryOperation fuel operation retryPolicy s token = some run →
          waits run.trace = [] →
          RetryOperation fuel operation retryPolicy s token' = some run) := by
  obtain ⟨f, rfl⟩ : ∃ f, fuel = f + 1 := ⟨fuel - 1, by omega⟩
  refine ⟨fun h => ?_, fun v h hv => ?_, fun run hrun hw => ?_⟩
  · simp [RetryOperation, retryLoop_success operation retryPolicy _ f 0 s h]
  · rcases ho : operation 0 with _ | err
    · exact absurd ho h
    · simp [RetryOperation, retryLoop_violation operation retryPolicy _ f 0 s err v ho hv]
  · obtain ⟨m, _, _, hend⟩ :=
      retryLoop_normalForm operation retryPolicy token (f + 1) 0 s run hrun
    have hm : m = 0 := by
      have hl : (waits run.trace).length = 0 := by rw [hw]; rfl
      rcases hend with ⟨_, rfl⟩ | ⟨e, v, _, _, rfl⟩ | ⟨e, w, _, _, _, rfl⟩ <;>
        simp [waits_append, waits_failedRounds, waits] at hl
      · exact hl
      · exact hl
    subst hm
    rcases hend with ⟨ho, rfl⟩ | ⟨e, v, ho, hv, rfl⟩ | ⟨e, w, _, _, _, rfl⟩
    · exact retryLoop_success operation retryPolicy token' f 0 s ho
    · exact retryLoop_violation operation retryPolicy token' f 0 s e v ho hv
    · simp [waits_append, waits, failedRounds] at hw

/-- C14, an instance: a first attempt that succeeds, with a token that is
never triggered and with one on which a `Cancel` is received at once. -/
theorem C14_token_only_in_wait_witness :
    1 ≤ 1
      ∧ ((fun _ => none : Nat → Option GoError) 0 = none →
          (RetryOperation 1 (fun _ => none) FixedDurationClosure.call (FixedDuration 10 3)
              (fun _ => SelectCase.timer)).map Run.result = some none
            ∧ (RetryOperation 1 (fun _ => none) FixedDurationClosure.call (FixedDuration 10 3)
              (cancelledAt 0)).map Run.result = some none) :=
  ⟨by decide,
    (C14_token_only_in_wait (fun _ => none) FixedDurationClosure.call (FixedDuration 10 3)
      (fun _ => SelectCase.timer) (cancelledAt 0) 1 (by decide)).1⟩

/-- C15: a `nil` sent on the token makes dependents misbehave. A `Wait` whose
select receives `nil` from the token returns `nil`, the result of an elapsed
timer; so when the first attempt fails, the policy allows a retry and the first
wait receives `nil`, `RetryOperation` does not return there: it goes on to its
second attempt, every run that returns has made at least two attempts, and the
run is the one that a timer that elapsed would have given. -/
theorem C15_nil_on_token {π : Type} (operation : Nat → Option GoError)
    (retryPolicy : RetryPolicy π) (s : π) (token : Nat → SelectCase) (fuel : Nat)
    (hfail : operation 0 ≠ none) (hpol : (retryPolicy s).1.2 = none)
    (hnil : token 0 = SelectCase.token none) :
    (∀ d, Wait d (SelectCase.token none) = none
        ∧ Wait d (SelectCase.token none) = Wait d SelectCase.timer)
      ∧ RetryOperation (fuel + 1) operation retryPolicy s token
          = (retryLoop operation retryPolicy token fuel 1 (retryPolicy s).2).map
              (Run.after (failedRounds operation retryPolicy 1 0 s))
      ∧ (∀ run, RetryOperation (fuel + 1) operation retryPolicy s token = some run →
          2 ≤ attempts run.trace)
      ∧ RetryOperation (fuel + 1) operation retryPolicy s token
          = RetryOperation (fuel + 1) operation retryPolicy s
              (fun i => if i = 0 then SelectCase.timer else token i) := by
  have hround : RetryOperation (fuel + 1) operation retryPolicy s token
      = (retryLoop operation retryPolicy token fuel 1 (retryPolicy s).2).map
          (Run.after (failedRounds operation retryPolicy 1 0 s)) :=
    retryLoop_round operation retryPolicy token fuel 0 s hfail hpol (by rw [hnil]; rfl)
  refine ⟨fun d => ⟨rfl, rfl⟩, hround, ?_, ?_⟩
  · intro run hrun
    rw [hround, Option.map_eq_some'] at hrun
    obtain ⟨r, hr, rfl⟩ := hrun
    obtain ⟨m, _, _, hend⟩ := retryLoop_normalForm operation retryPolicy token fuel 1 _ r hr
    have h1 : attempts (failedRounds operation retryPolicy 1 0 s) = 1 :=
      attempts_failedRounds operation retryPolicy 1 0 s
    rcases hend with ⟨_, rfl⟩ | ⟨e, v, _, _, rfl⟩ | ⟨e, w, _, _, _, rfl⟩ <;>
      simp [Run.after, attempts_append, h1, attempts_failedRounds, attempts]
  · apply retryLoop_congr_token
    intro i d
    by_cases hi : i = 0
    · subst hi; simp only [hnil, if_true]; rfl
    · simp only [hi, if_false]

/-- C15, an instance: `FixedDuration(10, 3)` with an operation that always
fails and a token from which `nil` is received during the first wait. -/
theorem C15_nil_on_token_witness :
    ((fun _ => some (GoError.other 0) : Nat → Option GoError) 0 ≠ none
        ∧ (FixedDurationClosure.call (FixedDuration 10 3)).1.2 = none
        ∧ (fun i => if i = 0 then SelectCase.token none else SelectCase.timer) 0
            = SelectCase.token none)
      ∧ RetryOperation (2 + 1) (fun _ => some (GoError.other 0)) FixedDurationClosure.call
            (FixedDuration 10 3)
            (fun i => if i = 0 then SelectCase.token none else SelectCase.timer)
          = RetryOperation (2 + 1) (fun _ => some (GoError.other 0)) FixedDurationClosure.call
            (FixedDuration 10 3)
            (fun i => if i = 0 then SelectCase.timer
              else (fun i => if i = 0 then SelectCase.token none else SelectCase.timer) i) :=
  ⟨⟨by simp, by decide, rfl⟩,
    (C15_nil_on_token (fun _ => some (GoError.other 0)) FixedDurationClosure.call
      (FixedDuration 10 3) (fun i => if i = 0 then SelectCase.token none else SelectCase.timer)
      2 (by simp) (by decide) rfl).2.2.2⟩

/-- C16: `RetryOperation` enforces no bound of its own. With an operation that
fails on every attempt, a policy that never reports a violation and a token
that is never triggered, the loop has not returned after `N` iterations, for
every `N`: its first `N` rounds are `N` invocations of the operation, each
followed by a policy call and a wait, and it is then at iteration `N`. -/
theorem C16_no_bound {π : Type} (operation : Nat → Option GoError)
    (retryPolicy : RetryPolicy π) (s : π) (token : Nat → SelectCase) (N : Nat)
    (hop : alwaysFails operation)
    (hpol : ∀ k, 1 ≤ k → (kthCall retryPolicy s k).2 = none)
    (htok : neverTriggered token) :
    RetryOperation N operation retryPolicy s token = none
      ∧ attempts (failedRounds operation retryPolicy N 0 s) = N
      ∧ ∀ fuel, RetryOperation (fuel + N) operation retryPolicy s token
          = (retryLoop operation retryPolicy token fuel N (stateAfter retryPolicy N s)).map
              (Run.after (failedRounds operation retryPolicy N 0 s)) := by
  have hrounds : ∀ fuel, RetryOperation (fuel + N) operation retryPolicy s token
      = (retryLoop operation retryPolicy token fuel N (stateAfter retryPolicy N s)).map
          (Run.after (failedRounds operation retryPolicy N 0 s)) := by
    intro fuel
    have := retryLoop_rounds operation retryPolicy token N fuel 0 s
      (fun k _ => hop _)
      (fun k _ => by simpa [kthCall] using hpol (k + 1) (by omega))
      (fun k _ d => by rw [htok]; rfl)
    rw [Nat.zero_add] at this
    exact this
  refine ⟨?_, attempts_failedRounds operation retryPolicy N 0 s, hrounds⟩
  have := hrounds 0
  rw [Nat.zero_add] at this
  rw [this]
  rfl

/-- C16, an instance: a policy that always allows a retry after a delay of 1;
after 1000 iterations the loop has not returned. -/
theorem C16_no_bound_witness :
    (alwaysFails (fun _ => some (GoError.other 0))
        ∧ (∀ k, 1 ≤ k → (kthCall (byCallNumber (fun _ => (1, none))) 0 k).2 = none)
        ∧ neverTriggered (fun _ => SelectCase.timer))
      ∧ RetryOperation 1000 (fun _ => some (GoError.other 0))
          (byCallNumber (fun _ => (1, none))) 0 (fun _ => SelectCase.timer) = none :=
  ⟨⟨fun _ => by simp, fun _ _ => rfl, fun _ => rfl⟩,
    (C16_no_bound (fun _ => some (GoError.other 0)) (byCallNumber (fun _ => (1, none))) 0
      (fun _ => SelectCase.timer) 1000 (fun _ => by simp) (fun _ _ => rfl) (fun _ => rfl)).1⟩

/-! ## FixedDuration: budget and termination -/

/-- A run on a `FixedDuration` closure whose counter reaches `maxRetry` within
`r` more calls returns within `r` iterations, whatever the operation and the
select outcomes, after at most `r` attempts and at most `r - 1` waits. -/
theorem fixedDuration_terminates (operation : Nat → Option GoError)
    (token : Nat → SelectCase) (r : Nat) (c : FixedDurationClosure) (i fuel : Nat)
    (hr : 1 ≤ r) (hmax : c.maxRetry ≤ c.count + r) (hcount : 0 ≤ c.count)
    (hwrap : c.count + r < 9223372036854775808) (hfuel : r ≤ fuel) :
    ∃ run, retryLoop operation FixedDurationClosure.call token fuel i c = some run
      ∧ attempts run.trace ≤ r
      ∧ (waits run.trace).length + 1 ≤ r := by
  induction r generalizing c i fuel with
  | zero => exact absurd hr (by decide)
  | succ r ih =>
    obtain ⟨f, rfl⟩ : ∃ f, fuel = f + 1 := ⟨fuel - 1, by omega⟩
    push_cast at hmax hwrap
    have hcall : FixedDurationClosure.call c
        = ((c.retryPeriod,
            if c.count + 1 ≥ c.maxRetry then some GoError.ErrorMaxRetryReached else none),
           { c with count := c.count + 1 }) := by
      have hw : wrapInt (c.count + 1) = c.count + 1 := by
        unfold wrapInt
        omega
      simp only [FixedDurationClosure.call, hw]
    rcases ho : operation i with _ | err
    · rw [retryLoop_success operation _ token f i c ho]
      exact ⟨_, rfl, by simp [attempts], by simp [waits]⟩
    · by_cases hge : c.count + 1 ≥ c.maxRetry
      · have hv : (FixedDurationClosure.call c).1.2 = some GoError.ErrorMaxRetryReached := by
          rw [hcall]; simp only [if_pos hge]
        rw [retryLoop_violation operation _ token f i c err _ ho hv]
        exact ⟨_, rfl, by simp [attempts], by simp [waits]⟩
      · have hv : (FixedDurationClosure.call c).1.2 = none := by
          rw [hcall]; simp only [if_neg hge]
        have hr' : 1 ≤ r := by omega
        rcases hw : Wait (FixedDurationClosure.call c).1.1 (token i) with _ | werr
        · rw [retryLoop_round operation _ token f i c (by rw [ho]; simp) hv hw]
          obtain ⟨run, hrun, hatt, hwaits⟩ :=
            ih (FixedDurationClosure.call c).2 (i + 1) f hr'
              (by rw [hcall]; simp only; omega) (by rw [hcall]; simp only; omega)
              (by rw [hcall]; simp only; omega) (by omega)
          refine ⟨_, by rw [hrun]; rfl, ?_, ?_⟩
          · simp only [Run.after, attempts_append, attempts_failedRounds]
            omega
          · simp only [Run.after, waits_append, waits_failedRounds, List.length_append,
              List.length_map, List.length_range]
            omega
        · rw [retryLoop_waitError operation _ token f i c err werr ho hv hw]
          refine ⟨_, rfl, by simp [attempts], ?_⟩
          simp only [waits, List.length_cons, List.length_nil]
          omega

/-- Every run that returns has invoked the operation at least once. -/
theorem attempts_pos {π : Type} (operation : Nat → Option GoError)
    (retryPolicy : RetryPolicy π) (token : Nat → SelectCase) (fuel i : Nat) (s : π)
    (run : Run π) (h : retryLoop operation retryPolicy token fuel i s = some run) :
    1 ≤ attempts run.trace := by
  obtain ⟨m, _, _, hend⟩ := retryLoop_normalForm operation retryPolicy token fuel i s run h
  rcases hend with ⟨_, rfl⟩ | ⟨e, v, _, _, rfl⟩ | ⟨e, w, _, _, _, rfl⟩ <;>
    simp [attempts_append, attempts]

/-- C17: for every maxRetry `≤ 1`, zero and negative values included, the
first call of a fresh `FixedDuration(p, maxRetry)` closure returns
`ErrorMaxRetryReached`, so `RetryOperation` with an operation that always fails
makes exactly one attempt and no wait, whatever the token; for every maxRetry
(a Go `int`, so below `2^63`) and a token that is never triggered the number
of attempts is `max(1, maxRetry)`; and a run that returns has always invoked
the operation at least once. -/
theorem C17_budget_is_max_one (p : Duration) (maxRetry : Int)
    (operation : Nat → Option GoError) (token : Nat → SelectCase) (fuel : Nat)
    (hop : alwaysFails operation) (hint : maxRetry < 9223372036854775808)
    (hfuel : (max 1 maxRetry).toNat ≤ fuel) :
    (maxRetry ≤ 1 →
        kthCall FixedDurationClosure.call (FixedDuration p maxRetry) 1
            = (p, some GoError.ErrorMaxRetryReached)
          ∧ ∃ run, RetryOperation fuel operation FixedDurationClosure.call
                (FixedDuration p maxRetry) token = some run
              ∧ run.result = some GoError.ErrorMaxRetryReached
              ∧ attempts run.trace = 1
              ∧ waits run.trace = [])
      ∧ (neverTriggered token →
          ∃ run, RetryOperation fuel operation FixedDurationClosure.call
                (FixedDuration p maxRetry) token = some run
              ∧ run.result = some GoError.ErrorMaxRetryReached
              ∧ (attempts run.trace : Int) = max 1 maxRetry)
      ∧ (∀ run, RetryOperation fuel operation FixedDurationClosure.call
            (FixedDuration p maxRetry) token = some run → 1 ≤ attempts run.trace) := by
  refine ⟨fun hle => ?_, fun htok => ?_, fun run hrun => ?_⟩
  · have h1 : wrapInt (0 + ((0 : Nat) + 1 : Int)) ≥ maxRetry := by
      unfold wrapInt
      omega
    constructor
    · simp only [kthCall, Nat.sub_self, stateAfter, FixedDurationClosure.call, FixedDuration]
      have h1' : wrapInt (0 + 1) ≥ maxRetry := by
        unfold wrapInt
        omega
      simp only [if_pos h1']
    · obtain ⟨run, hrun, hres, hatt, _, hwaits, _⟩ :=
        fixedDuration_exhausts (FixedDuration p maxRetry) 0 operation token fuel 0
          (fun k hk => absurd hk (Nat.not_lt_zero k)) h1 (fun k _ => hop _)
          (fun k hk => absurd hk (Nat.not_lt_zero k)) (by omega)
      exact ⟨run, hrun, hres, hatt, by simpa using hwaits⟩
  · obtain ⟨m, hm⟩ : ∃ m : Nat, (m : Int) + 1 = max 1 maxRetry :=
      ⟨(max 1 maxRetry).toNat - 1, by omega⟩
    obtain ⟨run, hrun, hres, hatt, _⟩ :=
      fixedDuration_exhausts (FixedDuration p maxRetry) m operation token fuel 0
        (fun k hk => by
          show wrapInt ((0 : Int) + ((k : Int) + 1)) < maxRetry
          unfold wrapInt
          omega)
        (by
          show wrapInt ((0 : Int) + ((m : Int) + 1)) ≥ maxRetry
          unfold wrapInt
          omega)
        (fun k _ => hop _)
        (fun k _ d => by rw [htok]; rfl)
        (by omega)
    refine ⟨run, hrun, hres, ?_⟩
    rw [hatt, ← hm]
    push_cast
    rfl
  · exact attempts_pos operation _ token fuel 0 _ run hrun

/-- C17, three instances: `FixedDuration(10, 0)`, `FixedDuration(10, -4)`
and `FixedDuration(10, 1)` each allow one attempt and no wait. -/
theorem C17_budget_is_max_one_witness :
    (alwaysFails (fun _ => some (GoError.other 0))
        ∧ (0 : Int) < 9223372036854775808 ∧ (max 1 (0 : Int)).toNat ≤ 1 ∧ (0 : Int) ≤ 1)
      ∧ (∃ run, RetryOperation 1 (fun _ => some (GoError.other 0)) FixedDurationClosure.call
              (FixedDuration 10 0) (cancelledAt 0) = some run
            ∧ run.result = some GoError.ErrorMaxRetryReached
            ∧ attempts run.trace = 1
            ∧ waits run.trace = [])
      ∧ (∃ run, RetryOperation 1 (fun _ => some (GoError.other 0)) FixedDurationClosure.call
              (FixedDuration 10 (-4)) (cancelledAt 0) = some run
            ∧ run.result = some GoError.ErrorMaxRetryReached
            ∧ attempts run.trace = 1
            ∧ waits run.trace = [])
      ∧ (∃ run, RetryOperation 1 (fun _ => some (GoError.other 0)) FixedDurationClosure.call
              (FixedDuration 10 1) (cancelledAt 0) = some run
            ∧ run.result = some GoError.ErrorMaxRetryReached
            ∧ attempts run.trace = 1
            ∧ waits run.trace = []) :=
  ⟨⟨fun _ => by simp, by decide, by decide, by decide⟩,
    ((C17_budget_is_max_one 10 0 (fun _ => some (GoError.other 0)) (cancelledAt 0) 1
      (fun _ => by simp) (by decide) (by decide)).1 (by decide)).2,
    ((C17_budget_is_max_one 10 (-4) (fun _ => some (GoError.other 0)) (cancelledAt 0) 1
      (fun _ => by simp) (by decide) (by decide)).1 (by decide)).2,
    ((C17_budget_is_max_one 10 1 (fun _ => some (GoError.other 0)) (cancelledAt 0) 1
      (fun _ => by simp) (by decide) (by decide)).1 (by decide)).2⟩

/-- C18: a `FixedDuration` closure stays exhausted. For every maxRetry and all
call numbers `1 ≤ k < k' < 2^63` (below the point where the counter wraps
around) of a fresh closure, if call `k` returns `ErrorMaxRetryReached` then so
does call `k'`; the counter is `k` after `k` calls, `k'` after `k'` calls, and
so has not decreased. -/
theorem C18_stays_exhausted (p : Duration) (maxRetry : Int) (k k' : Nat)
    (hk : 1 ≤ k) (hlt : k < k') (hwrap : (k' : Int) < 9223372036854775808) :
    ((kthCall FixedDurationClosure.call (FixedDuration p maxRetry) k).2
          = some GoError.ErrorMaxRetryReached →
        (kthCall FixedDurationClosure.call (FixedDuration p maxRetry) k').2
          = some GoError.ErrorMaxRetryReached)
      ∧ (stateAfter FixedDurationClosure.call k (FixedDuration p maxRetry)).count = k
      ∧ (stateAfter FixedDurationClosure.call k' (FixedDuration p maxRetry)).count = k'
      ∧ (stateAfter FixedDurationClosure.call k (FixedDuration p maxRetry)).count
          ≤ (stateAfter FixedDurationClosure.call k' (FixedDuration p maxRetry)).count := by
  have hkw : (k : Int) < 9223372036854775808 := by omega
  have hcall : ∀ j : Nat, 1 ≤ j → (j : Int) < 9223372036854775808 →
      (kthCall FixedDurationClosure.call (FixedDuration p maxRetry) j).2
        = if (j : Int) ≥ maxRetry then some GoError.ErrorMaxRetryReached else none := by
    intro j hj hjw
    obtain ⟨i, rfl⟩ : ∃ i, j = i + 1 := ⟨j - 1, by omega⟩
    have h : wrapInt (0 + ((i : Int) + 1)) = (i : Int) + 1 := by
      push_cast at hjw
      unfold wrapInt
      omega
    simp only [kthCall, Nat.add_sub_cancel, FixedDurationClosure.call_stateAfter, FixedDuration,
      h, Nat.cast_succ]
  rw [hcall k hk hkw, hcall k' (by omega) hwrap,
    FixedDurationClosure.stateAfter_fresh p maxRetry k hkw,
    FixedDurationClosure.stateAfter_fresh p maxRetry k' hwrap]
  refine ⟨fun h => ?_, rfl, rfl, by simp only; omega⟩
  split at h
  · rename_i hge
    rw [if_pos (by omega)]
  · exact absurd h (by simp)

/-- C18, an instance: `FixedDuration(10, 3)` is exhausted at its third call
and still at its seventh. -/
theorem C18_stays_exhausted_witness :
    (1 ≤ 3 ∧ 3 < 7 ∧ ((7 : Nat) : Int) < 9223372036854775808)
      ∧ (kthCall FixedDurationClosure.call (FixedDuration 10 3) 3).2
          = some GoError.ErrorMaxRetryReached
      ∧ (kthCall FixedDurationClosure.call (FixedDuration 10 3) 7).2
          = some GoError.ErrorMaxRetryReached :=
  ⟨⟨by decide, by decide, by decide⟩, by decide,
    (C18_stays_exhausted 10 3 3 7 (by decide) (by decide) (by decide)).1 (by decide)⟩

/-- C19: with a fresh `FixedDuration(p, n)` closure (`n` a Go `int`, so below
`2^63`), `RetryOperation` returns for every operation and every sequence of
select outcomes, given fuel for `max(1, n)` iterations, after at most
`max(1, n)` invocations of the operation and at most `max(0, n - 1)` waits. -/
theorem C19_fixedDuration_terminates (p : Duration) (n : Int)
    (operation : Nat → Option GoError) (token : Nat → SelectCase) (fuel : Nat)
    (hint : n < 9223372036854775808) (hfuel : (max 1 n).toNat ≤ fuel) :
    ∃ run, RetryOperation fuel operation FixedDurationClosure.call (FixedDuration p n) token
        = some run
      ∧ (attempts run.trace : Int) ≤ max 1 n
      ∧ ((waits run.trace).length : Int) ≤ max 0 (n - 1) := by
  obtain ⟨run, hrun, hatt, hwaits⟩ :=
    fixedDuration_terminates operation token (max 1 n).toNat (FixedDuration p n) 0 fuel
      (by omega)
      (by simp only [FixedDuration]; omega)
      (by simp only [FixedDuration]; omega)
      (by simp only [FixedDuration]; omega)
      hfuel
  exact ⟨run, hrun, by omega, by omega⟩

/-- C19, an instance: `FixedDuration(10, 3)` with an operation that succeeds
on its second attempt and a `Cancel` received in the second wait. -/
theorem C19_fixedDuration_terminates_witness :
    ((3 : Int) < 9223372036854775808 ∧ (max 1 (3 : Int)).toNat ≤ 3)
      ∧ ∃ run, RetryOperation 3 (fun i => if i = 1 then none else some (GoError.other 0))
            FixedDurationClosure.call (FixedDuration 10 3) (cancelledAt 1) = some run
          ∧ (attempts run.trace : Int) ≤ max 1 3
          ∧ ((waits run.trace).length : Int) ≤ max 0 (3 - 1) :=
  ⟨⟨by decide, by decide⟩,
    C19_fixedDuration_terminates 10 3 (fun i => if i = 1 then none else some (GoError.other 0))
      (cancelledAt 1) 3 (by decide) (by decide)⟩

end tasks
